import Mathlib

/-!
# Verification of the boml TOML parser against its specification

This file gives a shallow embedding, in Lean 4, of the parts of the boml
TOML-parsing library that the specification claims speak about, and proves or
refutes each claim.

Conventions of the embedding:

* Rust byte strings are modelled as `List Nat` (one `Nat` per byte).
* The mutable cursor (`Text` in `src/text.rs`) is modelled by explicit state
  passing: each parsing function consumes a byte list and returns the
  unconsumed remainder together with its result.
* `i64` arithmetic is modelled on `Int` with the explicit bounds
  `i64Min = -2^63` and `i64Max = 2^63 - 1`; `checked_mul` / `checked_sub`
  return `Option Int` exactly as in Rust.  `u8` / `u16` / `u32` casts and
  wrapping arithmetic are modelled with explicit `% 2^8`, `% 2^16`, `% 2^32`.
* Fallible parsers return `Except TomlErrorKind`.  Error spans are byte ranges
  derived from cursor positions in the source; the claims under study only
  inspect error kinds for these parsers, so the list-consumption embedding
  drops the numeric span of `TomlError` and keeps its kind.
* `f64` values are modelled symbolically (`F64` below): infinities and NaNs
  with their sign, and finite values as sign plus magnitude.  IEEE-754
  rounding of decimal literals is not modelled; no claim depends on it.
-/

/-- Bytes of a Lean string literal (each char as its code point; all source
text under study is ASCII). -/
def bytes (s : String) : List Nat :=
  s.data.map Char.toNat

/-- Rust `u8::is_ascii_digit`. -/
def isAsciiDigit (b : Nat) : Bool :=
  48 ≤ b && b ≤ 57

/-- Rust `u8::is_ascii_whitespace`: space, tab, LF, form feed, CR. -/
def isAsciiWhitespace (b : Nat) : Bool :=
  b = 32 || b = 9 || b = 10 || b = 12 || b = 13

/-- `is_end_of_int` from `src/parser/num.rs`: ASCII whitespace or one of
`,` `.` `]` `}` `#`. -/
def isEndOfInt (b : Nat) : Bool :=
  isAsciiWhitespace b || b = 44 || b = 46 || b = 93 || b = 125 || b = 35

/-- `is_end_of_float` from `src/parser/num.rs`: ASCII whitespace or one of
`,` `]` `}` `#`. -/
def isEndOfFloat (b : Nat) : Bool :=
  isAsciiWhitespace b || b = 44 || b = 93 || b = 125 || b = 35

/-- The error kinds of the current revision (`TomlErrorKind`).  The enum
itself lives in the crate root, which is absent from the sources under
`src/` (only a stale revision of `lib.rs` remains); the variant names are
taken from the uses in `src/parser/*.rs` and from section 7 of the spec. -/
inductive TomlErrorKind where
  | InvalidBareKey
  | BareKeyHasSpace
  | UnclosedBasicString
  | UnclosedLiteralString
  | UnclosedQuotedKey
  | UnknownEscapeSequence
  | UnknownUnicodeScalar
  | NoEqualsInAssignment
  | NoKeyInAssignment
  | NoValueInAssignment
  | UnrecognisedValue
  | NoCommaDelimeter
  | UnclosedTableBracket
  | UnclosedArrayOfTablesBracket
  | UnclosedInlineTableBracket
  | UnclosedArrayBracket
  | NumberTooLarge
  | NumberHasInvalidBase
  | NumberHasLeadingZero
  | InvalidNumber
  | DateTimeTooManyDigits
  | DateMissingMonth
  | DateMissingDay
  | DateMissingDash
  | TimeMissingMinute
  | TimeMissingSecond
  | TimeMissingColon
  | OffsetMissingHour
  | OffsetMissingMinute
  | ReusedKey
deriving DecidableEq, Repr

/-- `TomlTime` from `src/types.rs` (`u8` hour/minute/second, `u32`
nanosecond, modelled as `Nat`). -/
structure TomlTime where
  hour : Nat
  minute : Nat
  second : Nat
  nanosecond : Nat
deriving DecidableEq, Repr

/-- `TomlDate` from `src/types.rs`. -/
structure TomlDate where
  year : Nat
  month : Nat
  month_day : Nat
deriving DecidableEq, Repr

/-- `TomlDateTime` from `src/types.rs`. -/
structure TomlDateTime where
  date : TomlDate
  time : TomlTime
deriving DecidableEq, Repr

/-- `TomlOffset` from `src/types.rs` (`i8` hour carries the sign). -/
structure TomlOffset where
  hour : Int
  minute : Nat
deriving DecidableEq, Repr

/-- `OffsetTomlDateTime` from `src/types.rs`. -/
structure OffsetTomlDateTime where
  offset : TomlOffset
  date : TomlDate
  time : TomlTime
deriving DecidableEq, Repr

/-- Model of `f64` values as produced by this parser: NaN and infinity with
their sign bit, and finite values as a sign flag plus a rational magnitude
(`neg = true, mag = 0` is `-0.0`).  IEEE rounding is not modelled. -/
inductive F64 where
  | nan (neg : Bool)
  | inf (neg : Bool)
  | finite (neg : Bool) (mag : ℚ)
deriving DecidableEq, Repr

/-- IEEE `==` on the `F64` model: NaN is not equal to anything, infinities
compare by sign, finite values compare by signed value (so `-0.0 == 0.0`). -/
def F64.ieeeEq : F64 → F64 → Bool
  | .nan _, _ => false
  | _, .nan _ => false
  | .inf a, .inf b => a = b
  | .inf _, .finite _ _ => false
  | .finite _ _, .inf _ => false
  | .finite s1 m1, .finite s2 m2 =>
      (if s1 then -m1 else m1) = (if s2 then -m2 else m2)

/-- Rust unary `-` on the `F64` model (flips the sign bit, also of NaN). -/
def F64.negate : F64 → F64
  | .nan s => .nan (!s)
  | .inf s => .inf (!s)
  | .finite s m => .finite (!s) m

/-- `CowSpan` from `src/text.rs`: either a raw slice of the input or an
owned string produced by escape processing.  Both constructors carry the
bytes that `as_str` exposes (for `Raw` the slice, for `Modified` the decoded
string); the span of the originating literal is not tracked by this
embedding. -/
inductive CowSpan where
  | Raw (s : List Nat)
  | Modified (s : List Nat)
deriving DecidableEq, Repr

/-- `CowSpan::as_str` from `src/text.rs`: the decoded text. -/
def CowSpan.as_str : CowSpan → List Nat
  | .Raw s => s
  | .Modified s => s

/-- `TomlValue` from `src/types.rs`.  Tables are association lists from
decoded key bytes to values, and `Array` keeps the source's array-of-tables
flag. -/
inductive TomlValue where
  | String (s : CowSpan)
  | Integer (n : Int)
  | Float (f : F64)
  | Boolean (b : Bool)
  | Time (t : TomlTime)
  | Date (d : TomlDate)
  | DateTime (dt : TomlDateTime)
  | OffsetDateTime (odt : OffsetTomlDateTime)
  | Array (xs : List TomlValue) (aot : Bool)
  | Table (entries : List (List Nat × TomlValue))
deriving Repr

/-- `TomlValueType` from `src/types.rs`. -/
inductive TomlValueType where
  | String | Integer | Float | Boolean | Time | Date | DateTime
  | OffsetDateTime | Array | Table
deriving DecidableEq, Repr

/-- `TomlValue::ty` from `src/types.rs`. -/
def TomlValue.ty : TomlValue → TomlValueType
  | .String _ => .String
  | .Integer _ => .Integer
  | .Float _ => .Float
  | .Boolean _ => .Boolean
  | .Time _ => .Time
  | .Date _ => .Date
  | .DateTime _ => .DateTime
  | .OffsetDateTime _ => .OffsetDateTime
  | .Array _ _ => .Array
  | .Table _ => .Table

/-! ## i64 arithmetic -/

def i64Min : Int := -(2 ^ 63)

def i64Max : Int := 2 ^ 63 - 1

/-- Rust `i64::checked_mul`. -/
def i64CheckedMul (a b : Int) : Option Int :=
  let r := a * b
  if r < i64Min ∨ i64Max < r then none else some r

/-- Rust `i64::checked_sub`. -/
def i64CheckedSub (a b : Int) : Option Int :=
  let r := a - b
  if r < i64Min ∨ i64Max < r then none else some r

/-! ## Date and time parsing (`src/parser/time.rs`) -/

/-- `parse_two_digits` from `src/parser/time.rs`.  Returns the parsed value
and the rest of the text; on failure the text is left exactly as the source
leaves the cursor (the first digit, if any, has been consumed). -/
def parse_two_digits : List Nat → Option Nat × List Nat
  | [] => (none, [])
  | b :: rest =>
    if isAsciiDigit b then
      match rest with
      | [] => (none, [])
      | c :: rest2 =>
        if isAsciiDigit c then (some (((b - 48) * 10 + (c - 48)) % 256), rest2)
        else (none, c :: rest2)
    else (none, b :: rest)

/-- The fractional-seconds digit loop of `parse_time`
(`src/parser/time.rs`, `NANOSECOND_DIGIT = 8`).  `u32` arithmetic wraps, so
each step is taken `% 2^32`.  Returns the accumulated `nanosecond` value,
the number of contributing digits, and the rest of the text (digits past the
truncation point are consumed but discarded). -/
def parse_time_frac (digits ns : Nat) : List Nat → Nat × Nat × List Nat
  | [] => (digits, ns, [])
  | b :: rest =>
    if isAsciiDigit b then
      let ns2 := ((ns + (b - 48)) * 10) % 2 ^ 32
      let digits2 := digits + 1
      if 8 < digits2 then (digits2, ns2, rest.dropWhile (fun c => isAsciiDigit c))
      else parse_time_frac digits2 ns2 rest
    else (digits, ns, b :: rest)

/-- The zero-padding loop after the fraction (`for _ in digits..NANOSECOND_DIGIT`),
with the wrapping `u32` multiplication applied step by step. -/
def padNanos (ns : Nat) : Nat → Nat
  | 0 => ns
  | k + 1 => padNanos ((ns * 10) % 2 ^ 32) k

/-- `parse_time` from `src/parser/time.rs`.  The cursor sits on the `:` after
the hour (a debug assertion in the source); `text.next()` consumes it
unconditionally. -/
def parse_time (hour : Nat) (l : List Nat) : Except TomlErrorKind (TomlTime × List Nat) :=
  let l1 := l.drop 1
  match parse_two_digits l1 with
  | (none, _) => .error .TimeMissingMinute
  | (some minute, l2) =>
    match l2 with
    | 58 :: l3 =>
      match parse_two_digits l3 with
      | (none, _) => .error .TimeMissingSecond
      | (some second, l4) =>
        match l4 with
        | 46 :: l5 =>
          let (digits, ns, l6) := parse_time_frac 0 0 l5
          .ok (⟨hour, minute, second, padNanos ns (8 - digits)⟩, l6)
        | _ => .ok (⟨hour, minute, second, 0⟩, l4)
    | _ => .error .TimeMissingColon

/-- `parse_date` from `src/parser/time.rs`.  The cursor sits on the `-` after
the year.  Produces a `Date`, `DateTime` or `OffsetDateTime` value. -/
def parse_date (year : Nat) (l : List Nat) : Except TomlErrorKind (TomlValue × List Nat) :=
  let l1 := l.drop 1
  match parse_two_digits l1 with
  | (none, _) => .error .DateMissingMonth
  | (some month, l2) =>
    match l2 with
    | 45 :: l3 =>
      match parse_two_digits l3 with
      | (none, _) => .error .DateMissingDay
      | (some month_day, l4) =>
        let date : TomlDate := ⟨year, month, month_day⟩
        match l4 with
        | sep :: l5 =>
          if sep = 32 ∨ sep = 84 ∨ sep = 116 then
            match parse_two_digits l5 with
            | (some hour, l6) =>
              match parse_time hour l6 with
              | .error e => .error e
              | .ok (time, l7) =>
                match l7 with
                | 90 :: l8 => .ok (.OffsetDateTime ⟨⟨0, 0⟩, date, time⟩, l8)
                | 122 :: l8 => .ok (.OffsetDateTime ⟨⟨0, 0⟩, date, time⟩, l8)
                | s :: l8 =>
                  if s = 43 ∨ s = 45 then
                    match parse_two_digits l8 with
                    | (none, _) => .error .TimeMissingMinute
                    | (some ohour, l9) =>
                      match l9 with
                      | 58 :: l10 =>
                        match parse_two_digits l10 with
                        | (none, _) => .error .OffsetMissingMinute
                        | (some ominute, l11) =>
                          let h : Int := if s = 45 then -(ohour : Int) else (ohour : Int)
                          .ok (.OffsetDateTime ⟨⟨h, ominute⟩, date, time⟩, l11)
                      | _ => .error .OffsetMissingHour
                  else .ok (.DateTime ⟨date, time⟩, s :: l8)
                | [] => .ok (.DateTime ⟨date, time⟩, [])
            | (none, l6) => .ok (.Date date, l6)
          else .ok (.Date date, sep :: l5)
        | [] => .ok (.Date date, [])
    | _ => .error .DateMissingDash

/-! ## Number parsing (`src/parser/num.rs`) -/

/-- The digit matcher of `parse_hex_int` (the source lists each byte
explicitly; this is the same partial map written with ranges). -/
def hexMatcher (b : Nat) : Option Int :=
  if 48 ≤ b ∧ b ≤ 57 then some ((b : Int) - 48)
  else if 65 ≤ b ∧ b ≤ 70 then some ((b : Int) - 55)
  else if 97 ≤ b ∧ b ≤ 102 then some ((b : Int) - 87)
  else none

/-- The digit matcher of `parse_oct_int`. -/
def octMatcher (b : Nat) : Option Int :=
  if 48 ≤ b ∧ b ≤ 55 then some ((b : Int) - 48) else none

/-- The digit matcher of `parse_bin_int`. -/
def binMatcher (b : Nat) : Option Int :=
  if b = 48 ∨ b = 49 then some ((b : Int) - 48) else none

/-- The accumulation loop of `parse_int_with_base` (`src/parser/num.rs`).
The loop advances the cursor before inspecting the byte, so the terminating
end-of-int byte is consumed; bytes the matcher rejects are skipped silently,
exactly as in the source.  The negative of the value is accumulated. -/
def baseLoop (B : Int) (matcher : Nat → Option Int) (running : Int) :
    List Nat → Except TomlErrorKind (Int × List Nat)
  | [] => .ok (running, [])
  | b :: rest =>
    if b = 95 then baseLoop B matcher running rest
    else if isEndOfInt b then .ok (running, rest)
    else
      match matcher b with
      | some d =>
        match i64CheckedMul running B with
        | none => .error .NumberTooLarge
        | some r1 =>
          match i64CheckedSub r1 d with
          | none => .error .NumberTooLarge
          | some r2 => baseLoop B matcher r2 rest
      | none => baseLoop B matcher running rest

/-- The final sign fixup of `parse_int_with_base`: a negative literal keeps
the (negative) accumulator; a positive one fails with `NumberTooLarge` when
`unsigned_abs` exceeds `i64::MAX`, otherwise negates. -/
def intFinish (negative : Bool) (running : Int) : Except TomlErrorKind Int :=
  if negative then .ok running
  else if i64Max < (running.natAbs : Int) then .error .NumberTooLarge
  else .ok (-running)

/-- `parse_int_with_base` from `src/parser/num.rs`. -/
def parse_int_with_base (B : Int) (matcher : Nat → Option Int) (negative : Bool)
    (l : List Nat) : Except TomlErrorKind (Int × List Nat) :=
  match baseLoop B matcher 0 l with
  | .error e => .error e
  | .ok (running, rest) =>
    match intFinish negative running with
    | .error e => .error e
    | .ok n => .ok (n, rest)

/-- `parse_hex_int` from `src/parser/num.rs`. -/
def parse_hex_int (negative : Bool) (l : List Nat) : Except TomlErrorKind (Int × List Nat) :=
  parse_int_with_base 16 hexMatcher negative l

/-- `parse_oct_int` from `src/parser/num.rs`. -/
def parse_oct_int (negative : Bool) (l : List Nat) : Except TomlErrorKind (Int × List Nat) :=
  parse_int_with_base 8 octMatcher negative l

/-- `parse_bin_int` from `src/parser/num.rs`. -/
def parse_bin_int (negative : Bool) (l : List Nat) : Except TomlErrorKind (Int × List Nat) :=
  parse_int_with_base 2 binMatcher negative l

/-- Exact rational value of a cleaned decimal float literal
(mantissa `.` fraction `e` exponent).  `parse_float` in the source hands the
underscore-stripped bytes to the Rust standard library's `f64` parser; this
models the numeric value exactly (IEEE rounding is not modelled) and rejects
byte strings whose shape the standard parser rejects. -/
def floatLitVal (l : List Nat) : Option ℚ :=
  let mantissa := l.takeWhile (fun b => b ≠ 101 ∧ b ≠ 69)
  let expPart := l.dropWhile (fun b => b ≠ 101 ∧ b ≠ 69)
  let intPart := mantissa.takeWhile (fun b => b ≠ 46)
  let fracPart := (mantissa.dropWhile (fun b => b ≠ 46)).drop 1
  let digitsVal : List Nat → Nat := fun ds => ds.foldl (fun a b => a * 10 + (b - 48)) 0
  if (intPart ++ fracPart).all (fun b => isAsciiDigit b) ∧ intPart ≠ [] ∧
      (mantissa.dropWhile (fun b => b ≠ 46) = [] ∨ fracPart ≠ []) then
    let m : ℚ := (digitsVal intPart : ℚ) + (digitsVal fracPart : ℚ) / ((10 : ℚ) ^ fracPart.length)
    match expPart with
    | [] => some m
    | _ :: es =>
      let eDigits := if es.head? = some 43 ∨ es.head? = some 45 then es.drop 1 else es
      if eDigits.all (fun b => isAsciiDigit b) ∧ eDigits ≠ [] then
        if es.head? = some 45 then some (m / (10 : ℚ) ^ digitsVal eDigits)
        else some (m * (10 : ℚ) ^ digitsVal eDigits)
      else none
  else none

/-- `parse_float` from `src/parser/num.rs`: copies all bytes from `start` up
to the first end-of-float byte, dropping underscores, and hands them to the
standard float parser.  `fromStart` is the text from the number's start; the
remaining text is everything from the first end-of-float byte on (when no
such byte exists the cursor is left where it was, which no claim under study
exercises; we return the empty remainder in that case). -/
def parse_float (negative : Bool) (fromStart : List Nat) :
    Except TomlErrorKind (F64 × List Nat) :=
  let tok := fromStart.takeWhile (fun b => !(isEndOfFloat b))
  let rest := fromStart.dropWhile (fun b => !(isEndOfFloat b))
  let cleaned := tok.filter (fun b => b ≠ 95)
  match floatLitVal cleaned with
  | some q => .ok (.finite negative q, rest)
  | none => .error .InvalidNumber

/-- The leading-zero digit loop of `parse_number`
(`src/parser/num.rs`, the `Some(other) if other.is_ascii_digit()` arm).
`consumed` is `text.idx() - start`; `num` is the `u16` accumulator (kept
`% 2^16`).  A two-digit run followed by `:` dispatches to `parse_time`, a
four-digit run followed by `-` to `parse_date`; everything else is a leading
zero error.  The sign flag is dropped by these dispatches, as in the
source. -/
def leadZeroLoop (consumed num : Nat) : List Nat → Except TomlErrorKind (TomlValue × List Nat)
  | [] => .error .NumberHasLeadingZero
  | b :: rest =>
    if 4 < consumed then .error .NumberHasLeadingZero
    else if isAsciiDigit b then
      leadZeroLoop (consumed + 1) ((num * 10 + (b - 48)) % 2 ^ 16) rest
    else if consumed = 2 ∧ b = 58 then
      match parse_time (num % 256) (b :: rest) with
      | .error e => .error e
      | .ok (t, l2) => .ok (.Time t, l2)
    else if consumed = 4 ∧ b = 45 then
      parse_date (num % 2 ^ 16) (b :: rest)
    else .error .NumberHasLeadingZero

/-- The main decimal loop of `parse_number` (`src/parser/num.rs`,
lines 118-173).  `seen` holds the bytes consumed since the number's start
(so `seen.length` is `text.idx() - start`); the negative of the value is
accumulated in `running` with checked `i64` arithmetic.  A break on an
end-of-int byte leaves that byte unconsumed. -/
def decLoop (negative : Bool) (seen : List Nat) (running : Int) :
    List Nat → Except TomlErrorKind (TomlValue × List Nat)
  | [] =>
    match intFinish negative running with
    | .error e => .error e
    | .ok n => .ok (.Integer n, [])
  | b :: rest =>
    if b = 95 then decLoop negative (seen ++ [b]) running rest
    else if b = 46 ∨ b = 101 ∨ b = 69 then
      match parse_float negative (seen ++ b :: rest) with
      | .error e => .error e
      | .ok (f, l2) => .ok (.Float f, l2)
    else if b = 45 then
      if seen.length = 4 then parse_date ((-running).toNat % 2 ^ 16) (b :: rest)
      else .error .DateTimeTooManyDigits
    else if b = 58 then
      if seen.length = 2 then
        match parse_time ((-running).toNat % 256) (b :: rest) with
        | .error e => .error e
        | .ok (t, l2) => .ok (.Time t, l2)
      else .error .DateTimeTooManyDigits
    else if isAsciiDigit b then
      match i64CheckedMul running 10 with
      | none => .error .NumberTooLarge
      | some r1 =>
        match i64CheckedSub r1 ((b : Int) - 48) with
        | none => .error .NumberTooLarge
        | some r2 => decLoop negative (seen ++ [b]) r2 rest
    else if isEndOfInt b then
      match intFinish negative running with
      | .error e => .error e
      | .ok n => .ok (.Integer n, b :: rest)
    else .error .InvalidNumber

/-- The `text.current_byte() == Some(b'0')` branch of `parse_number`
(`src/parser/num.rs`): base markers, `0.`/`0e` floats, the leading-zero digit
loop, a bare `0`, and `InvalidNumber` otherwise.  `rest` is the text after
the `0`. -/
def parse_number_zero (negative : Bool) (rest : List Nat) :
    Except TomlErrorKind (TomlValue × List Nat) :=
  match rest with
  | 120 :: r2 =>
    match parse_hex_int negative r2 with
    | .error e => .error e
    | .ok (n, r3) => .ok (.Integer n, r3)
  | 111 :: r2 =>
    match parse_oct_int negative r2 with
    | .error e => .error e
    | .ok (n, r3) => .ok (.Integer n, r3)
  | 98 :: r2 =>
    match parse_bin_int negative r2 with
    | .error e => .error e
    | .ok (n, r3) => .ok (.Integer n, r3)
  | b :: r2 =>
    if b = 46 ∨ b = 101 ∨ b = 69 then
      match parse_float negative (48 :: b :: r2) with
      | .error e => .error e
      | .ok (f, l2) => .ok (.Float f, l2)
    else if isAsciiDigit b then
      leadZeroLoop 2 (b - 48) r2
    else if isEndOfInt b then .ok (.Integer 0, b :: r2)
    else .error .InvalidNumber
  | [] => .ok (.Integer 0, [])

/-- `parse_number` from `src/parser/num.rs`. -/
def parse_number (negative : Bool) (l : List Nat) :
    Except TomlErrorKind (TomlValue × List Nat) :=
  if l.head? = some 48 then parse_number_zero negative (l.drop 1)
  else if l.head? = some 105 ∧ l.take 3 = bytes "inf" then
    .ok (.Float (.inf negative), l.drop 3)
  else if l.head? = some 110 ∧ l.take 3 = bytes "nan" then
    .ok (.Float (.nan negative), l.drop 3)
  else decLoop negative [] 0 l

/-- `parse_sign` from `src/parser/num.rs`: a leading `+` or `-` is consumed
and `parse_number` runs on the rest with the corresponding sign flag. -/
def parse_sign (l : List Nat) : Except TomlErrorKind (TomlValue × List Nat) :=
  match l with
  | 43 :: rest => parse_number false rest
  | 45 :: rest => parse_number true rest
  | _ => .error .UnrecognisedValue



/-! ## Values of digit strings, and the integer-accumulator lemmas -/

/-- Decimal value of a byte string, read left to right; bytes that are not
ASCII digits (only underscores ever reach the accumulator loop) leave the
accumulator unchanged, exactly as the loop skips them. -/
def val10 (acc : Int) : List Nat → Int
  | [] => acc
  | b :: rest => val10 (if isAsciiDigit b then acc * 10 + ((b : Int) - 48) else acc) rest

/-- Value of a byte string under a base-`B` digit matcher, skipping
underscores and bytes the matcher rejects, as `parse_int_with_base` does. -/
def valM (B : Int) (matcher : Nat → Option Int) (acc : Int) : List Nat → Int
  | [] => acc
  | b :: rest =>
    valM B matcher
      (if b = 95 then acc
       else match matcher b with | some d => acc * B + d | none => acc) rest

theorem isAsciiDigit_iff (b : Nat) : isAsciiDigit b = true ↔ 48 ≤ b ∧ b ≤ 57 := by
  simp [isAsciiDigit]

theorem val10_mono (l : List Nat) : ∀ acc : Int, 0 ≤ acc → acc ≤ val10 acc l := by
  induction l with
  | nil => intro acc _; simp [val10]
  | cons b rest ih =>
    intro acc hacc
    simp only [val10]
    by_cases hd : isAsciiDigit b = true
    · rw [if_pos hd]
      have hb := (isAsciiDigit_iff b).1 hd
      have h48 : (48 : Int) ≤ (b : Int) := by exact_mod_cast hb.1
      have h1 : acc ≤ acc * 10 + ((b : Int) - 48) := by nlinarith
      exact le_trans h1 (ih _ (by linarith))
    · rw [if_neg hd]
      exact ih acc hacc

theorem valM_mono (B : Int) (matcher : Nat → Option Int) (hB : 1 ≤ B) (l : List Nat)
    (hl : ∀ b ∈ l, b ≠ 95 → ∀ d, matcher b = some d → 0 ≤ d) :
    ∀ acc : Int, 0 ≤ acc → acc ≤ valM B matcher acc l := by
  induction l with
  | nil => intro acc _; simp [valM]
  | cons b rest ih =>
    intro acc hacc
    simp only [valM]
    have hrest : ∀ x ∈ rest, x ≠ 95 → ∀ d, matcher x = some d → 0 ≤ d := by
      intro x hx; exact hl x (List.mem_cons_of_mem b hx)
    by_cases hu : b = 95
    · rw [if_pos hu]; exact ih hrest acc hacc
    · rw [if_neg hu]
      cases hm : matcher b with
      | none => exact ih hrest acc hacc
      | some d =>
        have hd : 0 ≤ d := hl b (List.mem_cons_self b rest) hu d hm
        have h1 : acc ≤ acc * B + d := by nlinarith
        exact le_trans h1 (ih hrest _ (by linarith))

/-- The decimal accumulator loop on a string of digits and underscores:
it fails with `NumberTooLarge` exactly when the value (negated for negative
literals) leaves `[-2^63, 2^63 - 1]`, and otherwise produces the exact
value.  `-2^63` itself is accepted. -/
theorem decLoop_digits (negative : Bool) (l : List Nat)
    (hl : ∀ b ∈ l, b = 95 ∨ (48 ≤ b ∧ b ≤ 57)) :
    ∀ (seen : List Nat) (r : Int), r ≤ 0 → i64Min ≤ r →
    decLoop negative seen r l =
      (if 2 ^ 63 < val10 (-r) l then .error .NumberTooLarge
       else if negative = true then .ok (.Integer (-(val10 (-r) l)), [])
       else if 2 ^ 63 ≤ val10 (-r) l then .error .NumberTooLarge
       else .ok (.Integer (val10 (-r) l), [])) := by
  induction l with
  | nil =>
    intro seen r hr hrb
    have hrb2 : -r ≤ 2 ^ 63 := by simp only [i64Min] at hrb; omega
    have hna : (r.natAbs : Int) = -r := by omega
    simp only [decLoop, val10, intFinish, i64Max, hna]
    rw [if_neg (show ¬(2 : Int) ^ 63 < -r by omega)]
    cases negative with
    | true => simp
    | false =>
      rw [if_neg (show ¬(false = true) by simp)]
      by_cases h : (2 : Int) ^ 63 ≤ -r
      · rw [if_pos (show (2 : Int) ^ 63 - 1 < -r by omega), if_pos h]
        simp
      · rw [if_neg (show ¬(2 : Int) ^ 63 - 1 < -r by omega), if_neg h]
        simp
  | cons b rest ih =>
    intro seen r hr hrb
    have hrb2 : -r ≤ 2 ^ 63 := by simp only [i64Min] at hrb; omega
    have hb := hl b (List.mem_cons_self b rest)
    have hrest : ∀ x ∈ rest, x = 95 ∨ (48 ≤ x ∧ x ≤ 57) := by
      intro x hx; exact hl x (List.mem_cons_of_mem b hx)
    rcases hb with hu | hdig
    · -- underscore: skipped by both the loop and the value
      subst hu
      have hv : val10 (-r) (95 :: rest) = val10 (-r) rest := by
        simp [val10, isAsciiDigit]
      have hstep : decLoop negative seen r (95 :: rest) =
          decLoop negative (seen ++ [95]) r rest := by
        simp [decLoop]
      rw [hstep, hv]
      exact ih hrest (seen ++ [95]) r hr hrb
    · -- digit byte
      have hne95 : b ≠ 95 := by omega
      have hnefe : ¬(b = 46 ∨ b = 101 ∨ b = 69) := by omega
      have hne45 : b ≠ 45 := by omega
      have hne58 : b ≠ 58 := by omega
      have hisd : isAsciiDigit b = true := (isAsciiDigit_iff b).2 hdig
      have hval : val10 (-r) (b :: rest) = val10 ((-r) * 10 + ((b : Int) - 48)) rest := by
        simp only [val10, hisd, if_pos]
      have hb48 : (48 : Int) ≤ (b : Int) := by exact_mod_cast hdig.1
      have hb57 : (b : Int) ≤ 57 := by exact_mod_cast hdig.2
      simp only [decLoop]
      rw [if_neg hne95, if_neg hnefe, if_neg hne45, if_neg hne58, if_pos hisd]
      by_cases hov : (2 : Int) ^ 63 < (-r) * 10 + ((b : Int) - 48)
      · -- the checked arithmetic overflows at this digit
        have hge : (-r) * 10 + ((b : Int) - 48) ≤ val10 (-r) (b :: rest) := by
          rw [hval]
          exact val10_mono rest _ (by omega)
        have hout : (2 : Int) ^ 63 < val10 (-r) (b :: rest) := lt_of_lt_of_le hov hge
        rw [if_pos hout]
        by_cases hmul : (2 : Int) ^ 63 < (-r) * 10
        · have hm : i64CheckedMul r 10 = none := by
            simp only [i64CheckedMul, i64Min, i64Max]
            rw [if_pos (by omega)]
          simp only [hm]
        · have hm : i64CheckedMul r 10 = some (r * 10) := by
            simp only [i64CheckedMul, i64Min, i64Max]
            rw [if_neg (by omega)]
          have hs : i64CheckedSub (r * 10) ((b : Int) - 48) = none := by
            simp only [i64CheckedSub, i64Min, i64Max]
            rw [if_pos (by omega)]
          simp only [hm, hs]
      · -- no overflow: both checked operations succeed
        have hm : i64CheckedMul r 10 = some (r * 10) := by
          simp only [i64CheckedMul, i64Min, i64Max]
          rw [if_neg (by omega)]
        have hs : i64CheckedSub (r * 10) ((b : Int) - 48) =
            some (r * 10 - ((b : Int) - 48)) := by
          simp only [i64CheckedSub, i64Min, i64Max]
          rw [if_neg (by omega)]
        simp only [hm, hs]
        have hih := ih hrest (seen ++ [b]) (r * 10 - ((b : Int) - 48)) (by omega)
          (by simp only [i64Min]; omega)
        rw [hih, hval]
        have harg : -(r * 10 - ((b : Int) - 48)) = (-r) * 10 + ((b : Int) - 48) := by ring
        rw [harg]

/-- The base-`B` accumulator loop of `parse_int_with_base` on a string of
valid digits and underscores: `NumberTooLarge` exactly when the magnitude
exceeds `2^63`, otherwise the negated exact value (the loop accumulates
negatively). -/
theorem baseLoop_digits (B : Int) (matcher : Nat → Option Int) (hB : 1 ≤ B) (l : List Nat)
    (hl : ∀ b ∈ l, b = 95 ∨ (isEndOfInt b = false ∧ ∃ d, matcher b = some d ∧ 0 ≤ d ∧ d < B)) :
    ∀ r : Int, r ≤ 0 → i64Min ≤ r →
    baseLoop B matcher r l =
      (if 2 ^ 63 < valM B matcher (-r) l then .error .NumberTooLarge
       else .ok (-(valM B matcher (-r) l), [])) := by
  induction l with
  | nil =>
    intro r hr hrb
    have hrb2 : -r ≤ 2 ^ 63 := by simp only [i64Min] at hrb; omega
    simp only [baseLoop, valM]
    rw [if_neg (show ¬(2 : Int) ^ 63 < -r by omega)]
    simp
  | cons b rest ih =>
    intro r hr hrb
    have hrb2 : -r ≤ 2 ^ 63 := by simp only [i64Min] at hrb; omega
    have hb := hl b (List.mem_cons_self b rest)
    have hrest : ∀ x ∈ rest,
        x = 95 ∨ (isEndOfInt x = false ∧ ∃ d, matcher x = some d ∧ 0 ≤ d ∧ d < B) := by
      intro x hx; exact hl x (List.mem_cons_of_mem b hx)
    have hmono : ∀ x ∈ rest, x ≠ 95 → ∀ d, matcher x = some d → 0 ≤ d := by
      intro x hx hne d hd
      rcases hrest x hx with h95 | ⟨_, d2, hd2, hd0, _⟩
      · exact absurd h95 hne
      · rw [hd] at hd2; injection hd2 with he; omega
    by_cases hu : b = 95
    · -- underscore: skipped by both the loop and the value
      subst hu
      have hv : valM B matcher (-r) (95 :: rest) = valM B matcher (-r) rest := by
        simp [valM]
      have hstep : baseLoop B matcher r (95 :: rest) = baseLoop B matcher r rest := by
        simp [baseLoop]
      rw [hstep, hv]
      exact ih hrest r hr hrb
    · rcases hb with h95 | ⟨hend, d, hd, hd0, hdB⟩
      · exact absurd h95 hu
      have hv : valM B matcher (-r) (b :: rest) = valM B matcher ((-r) * B + d) rest := by
        simp only [valM, if_neg hu, hd]
      simp only [baseLoop]
      rw [if_neg hu, if_neg (show ¬isEndOfInt b = true by simp [hend]), hd]
      have hrB : r * B = -((-r) * B) := by ring
      have hrB0 : r * B ≤ 0 := by nlinarith
      by_cases hov : (2 : Int) ^ 63 < (-r) * B + d
      · have hge : (-r) * B + d ≤ valM B matcher (-r) (b :: rest) := by
          rw [hv]
          exact valM_mono B matcher hB rest hmono _ (by nlinarith)
        have hout : (2 : Int) ^ 63 < valM B matcher (-r) (b :: rest) := lt_of_lt_of_le hov hge
        rw [if_pos hout]
        by_cases hmul : (2 : Int) ^ 63 < (-r) * B
        · have hm : i64CheckedMul r B = none := by
            simp only [i64CheckedMul, i64Min, i64Max]
            rw [if_pos (by omega)]
          simp only [hm]
        · have hm : i64CheckedMul r B = some (r * B) := by
            simp only [i64CheckedMul, i64Min, i64Max]
            rw [if_neg (by omega)]
          have hs : i64CheckedSub (r * B) d = none := by
            simp only [i64CheckedSub, i64Min, i64Max]
            rw [if_pos (by omega)]
          simp only [hm, hs]
      · have hm : i64CheckedMul r B = some (r * B) := by
          simp only [i64CheckedMul, i64Min, i64Max]
          rw [if_neg (by omega)]
        have hs : i64CheckedSub (r * B) d = some (r * B - d) := by
          simp only [i64CheckedSub, i64Min, i64Max]
          rw [if_neg (by omega)]
        simp only [hm, hs]
        have hih := ih hrest (r * B - d) (by omega) (by simp only [i64Min]; omega)
        rw [hih, hv]
        have harg : -(r * B - d) = (-r) * B + d := by ring
        rw [harg]

/-- `parse_int_with_base` on a string of valid digits and underscores:
`NumberTooLarge` exactly when the signed value leaves `[-2^63, 2^63 - 1]`,
otherwise the exact value. -/
theorem parse_int_with_base_digits (B : Int) (matcher : Nat → Option Int) (hB : 1 ≤ B)
    (negative : Bool) (l : List Nat)
    (hl : ∀ b ∈ l, b = 95 ∨ (isEndOfInt b = false ∧ ∃ d, matcher b = some d ∧ 0 ≤ d ∧ d < B)) :
    parse_int_with_base B matcher negative l =
      (if 2 ^ 63 < valM B matcher 0 l then .error .NumberTooLarge
       else if negative = true then .ok (-(valM B matcher 0 l), [])
       else if 2 ^ 63 ≤ valM B matcher 0 l then .error .NumberTooLarge
       else .ok (valM B matcher 0 l, [])) := by
  have hmono : ∀ x ∈ l, x ≠ 95 → ∀ d, matcher x = some d → 0 ≤ d := by
    intro x hx hne d hd
    rcases hl x hx with h95 | ⟨_, d2, hd2, hd0, _⟩
    · exact absurd h95 hne
    · rw [hd] at hd2; injection hd2 with he; omega
  have hV0 : 0 ≤ valM B matcher 0 l := valM_mono B matcher hB l hmono 0 le_rfl
  have hbase := baseLoop_digits B matcher hB l hl 0 le_rfl
    (by simp only [i64Min]; omega)
  rw [neg_zero] at hbase
  simp only [parse_int_with_base, hbase]
  by_cases hover : (2 : Int) ^ 63 < valM B matcher 0 l
  · rw [if_pos hover, if_pos hover]
  · rw [if_neg hover, if_neg hover]
    simp only [intFinish, i64Max]
    have hna : (((-(valM B matcher 0 l)).natAbs : Int)) = valM B matcher 0 l := by omega
    rw [hna]
    cases negative with
    | true => simp
    | false =>
      rw [if_neg (show ¬(false = true) by simp)]
      by_cases h : (2 : Int) ^ 63 ≤ valM B matcher 0 l
      · rw [if_pos (by omega), if_pos h]
        simp
      · rw [if_neg (by omega), if_neg h]
        simp

/-- A byte string of hex digits and underscores satisfies the generic
digit-string hypothesis for `hexMatcher`. -/
theorem hexMatcher_valid (l : List Nat)
    (h : ∀ x ∈ l, x = 95 ∨ 48 ≤ x ∧ x ≤ 57 ∨ 65 ≤ x ∧ x ≤ 70 ∨ 97 ≤ x ∧ x ≤ 102) :
    ∀ x ∈ l, x = 95 ∨
      (isEndOfInt x = false ∧ ∃ d, hexMatcher x = some d ∧ 0 ≤ d ∧ d < 16) := by
  intro x hx
  rcases h x hx with h95 | h1 | h2 | h3
  · exact Or.inl h95
  · refine Or.inr ⟨by simp [isEndOfInt, isAsciiWhitespace]; omega, (x : Int) - 48, ?_, by omega, ?_⟩
    · simp only [hexMatcher]
      rw [if_pos ⟨h1.1, h1.2⟩]
    · have : (x : Int) ≤ 57 := by exact_mod_cast h1.2
      omega
  · refine Or.inr ⟨by simp [isEndOfInt, isAsciiWhitespace]; omega, (x : Int) - 55, ?_, ?_, ?_⟩
    · simp only [hexMatcher]
      rw [if_neg (by omega), if_pos ⟨h2.1, h2.2⟩]
    · have : (65 : Int) ≤ (x : Int) := by exact_mod_cast h2.1
      omega
    · have : (x : Int) ≤ 70 := by exact_mod_cast h2.2
      omega
  · refine Or.inr ⟨by simp [isEndOfInt, isAsciiWhitespace]; omega, (x : Int) - 87, ?_, ?_, ?_⟩
    · simp only [hexMatcher]
      rw [if_neg (by omega), if_neg (by omega), if_pos ⟨h3.1, h3.2⟩]
    · have : (97 : Int) ≤ (x : Int) := by exact_mod_cast h3.1
      omega
    · have : (x : Int) ≤ 102 := by exact_mod_cast h3.2
      omega

/-- A byte string of octal digits and underscores satisfies the generic
digit-string hypothesis for `octMatcher`. -/
theorem octMatcher_valid (l : List Nat)
    (h : ∀ x ∈ l, x = 95 ∨ 48 ≤ x ∧ x ≤ 55) :
    ∀ x ∈ l, x = 95 ∨
      (isEndOfInt x = false ∧ ∃ d, octMatcher x = some d ∧ 0 ≤ d ∧ d < 8) := by
  intro x hx
  rcases h x hx with h95 | h1
  · exact Or.inl h95
  · refine Or.inr ⟨by simp [isEndOfInt, isAsciiWhitespace]; omega, (x : Int) - 48, ?_, by omega, ?_⟩
    · simp only [octMatcher]
      rw [if_pos ⟨h1.1, h1.2⟩]
    · have : (x : Int) ≤ 55 := by exact_mod_cast h1.2
      omega

/-- A byte string of binary digits and underscores satisfies the generic
digit-string hypothesis for `binMatcher`. -/
theorem binMatcher_valid (l : List Nat)
    (h : ∀ x ∈ l, x = 95 ∨ x = 48 ∨ x = 49) :
    ∀ x ∈ l, x = 95 ∨
      (isEndOfInt x = false ∧ ∃ d, binMatcher x = some d ∧ 0 ≤ d ∧ d < 2) := by
  intro x hx
  rcases h x hx with h95 | h1
  · exact Or.inl h95
  · refine Or.inr ⟨by simp [isEndOfInt, isAsciiWhitespace]; omega, (x : Int) - 48, ?_, by omega, ?_⟩
    · simp only [binMatcher]
      rw [if_pos h1]
    · rcases h1 with h | h <;> (subst h; norm_num)

/-- `parse_number` on a decimal literal whose first byte is a nonzero digit
routes directly into the decimal accumulator loop. -/
theorem parse_number_decimal (negative : Bool) (b : Nat) (l : List Nat)
    (h49 : 49 ≤ b) (h57 : b ≤ 57) :
    parse_number negative (b :: l) = decLoop negative [] 0 (b :: l) := by
  simp only [parse_number, List.head?]
  rw [if_neg (by simp; omega)]
  rw [if_neg (by rintro ⟨hh, -⟩; simp at hh; omega)]
  rw [if_neg (by rintro ⟨hh, -⟩; simp at hh; omega)]

/-- `parse_number` on a `0x` literal routes into `parse_hex_int`. -/
theorem parse_number_hex (negative : Bool) (l : List Nat) :
    parse_number negative (48 :: 120 :: l) =
      (match parse_hex_int negative l with
       | .error e => .error e
       | .ok (n, r) => .ok (.Integer n, r)) := rfl

/-- `parse_number` on a `0o` literal routes into `parse_oct_int`. -/
theorem parse_number_oct (negative : Bool) (l : List Nat) :
    parse_number negative (48 :: 111 :: l) =
      (match parse_oct_int negative l with
       | .error e => .error e
       | .ok (n, r) => .ok (.Integer n, r)) := rfl

/-- `parse_number` on a `0b` literal routes into `parse_bin_int`. -/
theorem parse_number_bin (negative : Bool) (l : List Nat) :
    parse_number negative (48 :: 98 :: l) =
      (match parse_bin_int negative l with
       | .error e => .error e
       | .ok (n, r) => .ok (.Integer n, r)) := rfl

/-- C3: in each of the four bases, an integer literal whose absolute value
exceeds `2^63` fails with `NumberTooLarge`, and the literal
`-9223372036854775808` is accepted as exactly `-2^63`. -/
theorem claim_c3 :
    (∀ (negative : Bool) (b : Nat) (l : List Nat),
        49 ≤ b → b ≤ 57 → (∀ x ∈ l, x = 95 ∨ (48 ≤ x ∧ x ≤ 57)) →
        2 ^ 63 < val10 0 (b :: l) →
        parse_number negative (b :: l) = .error .NumberTooLarge)
  ∧ (∀ (negative : Bool) (l : List Nat),
        (∀ x ∈ l, x = 95 ∨ 48 ≤ x ∧ x ≤ 57 ∨ 65 ≤ x ∧ x ≤ 70 ∨ 97 ≤ x ∧ x ≤ 102) →
        2 ^ 63 < valM 16 hexMatcher 0 l →
        parse_number negative (48 :: 120 :: l) = .error .NumberTooLarge)
  ∧ (∀ (negative : Bool) (l : List Nat),
        (∀ x ∈ l, x = 95 ∨ 48 ≤ x ∧ x ≤ 55) →
        2 ^ 63 < valM 8 octMatcher 0 l →
        parse_number negative (48 :: 111 :: l) = .error .NumberTooLarge)
  ∧ (∀ (negative : Bool) (l : List Nat),
        (∀ x ∈ l, x = 95 ∨ x = 48 ∨ x = 49) →
        2 ^ 63 < valM 2 binMatcher 0 l →
        parse_number negative (48 :: 98 :: l) = .error .NumberTooLarge)
  ∧ parse_sign (bytes "-9223372036854775808") = .ok (.Integer (-(2 ^ 63)), []) := by
  refine ⟨?_, ?_, ?_, ?_, rfl⟩
  · intro negative b l h49 h57 hl hover
    rw [parse_number_decimal negative b l h49 h57]
    have hl2 : ∀ x ∈ b :: l, x = 95 ∨ (48 ≤ x ∧ x ≤ 57) := by
      intro x hx
      rcases List.mem_cons.1 hx with h | h
      · subst h; right; omega
      · exact hl x h
    have hloop := decLoop_digits negative (b :: l) hl2 [] 0 le_rfl
      (by norm_num [i64Min])
    rw [neg_zero] at hloop
    rw [hloop, if_pos hover]
  · intro negative l hl hover
    have hpb := parse_int_with_base_digits 16 hexMatcher (by norm_num) negative l
      (hexMatcher_valid l hl)
    rw [if_pos hover] at hpb
    rw [parse_number_hex negative l]
    simp only [parse_hex_int, hpb]
  · intro negative l hl hover
    have hpb := parse_int_with_base_digits 8 octMatcher (by norm_num) negative l
      (octMatcher_valid l hl)
    rw [if_pos hover] at hpb
    rw [parse_number_oct negative l]
    simp only [parse_oct_int, hpb]
  · intro negative l hl hover
    have hpb := parse_int_with_base_digits 2 binMatcher (by norm_num) negative l
      (binMatcher_valid l hl)
    rw [if_pos hover] at hpb
    rw [parse_number_bin negative l]
    simp only [parse_bin_int, hpb]

set_option maxRecDepth 100000 in
/-- Witness for C3: each universal part applied at a concrete literal whose
absolute value is `2^63 + 1`. -/
theorem claim_c3_witness :
    parse_number false (bytes "9223372036854775809") = .error .NumberTooLarge
  ∧ parse_number true (bytes "0x8000000000000001") = .error .NumberTooLarge
  ∧ parse_number false (bytes "0o1000000000000000000001") = .error .NumberTooLarge
  ∧ parse_number false (bytes "0b1000000000000000000000000000000000000000000000000000000000000001") =
      .error .NumberTooLarge := by
  refine ⟨?_, ?_, ?_, ?_⟩
  · exact claim_c3.1 false 57 (bytes "223372036854775809") (by norm_num) (by norm_num)
      (by decide) (by decide)
  · exact claim_c3.2.1 true (bytes "8000000000000001") (by decide) (by decide)
  · exact claim_c3.2.2.1 false (bytes "1000000000000000000001") (by decide) (by decide)
  · exact claim_c3.2.2.2.1 false
      (bytes "1000000000000000000000000000000000000000000000000000000000000001")
      (by decide) (by decide)

/-- Evaluation helper: the four-way overflow case split collapses to the
exact signed value when that value lies in `[-2^63, 2^63 - 1]`. -/
theorem intQuad_eval {a : Type} (mk : Int → a) (err : a) (negative : Bool) (V : Int)
    (hV0 : 0 ≤ V)
    (hlo : i64Min ≤ (if negative = true then -V else V))
    (hhi : (if negative = true then -V else V) ≤ i64Max) :
    (if 2 ^ 63 < V then err
     else if negative = true then mk (-V)
     else if 2 ^ 63 ≤ V then err
     else mk V) = mk (if negative = true then -V else V) := by
  simp only [i64Min, i64Max] at hlo hhi
  cases negative with
  | true =>
    simp only [show ((true = true)) = True from by simp, if_true] at hlo hhi ⊢
    rw [if_neg (by omega)]
  | false =>
    simp only [show ((false = true)) = False from by simp, if_false] at hlo hhi ⊢
    rw [if_neg (by omega), if_neg (by omega)]

/-- C6: in each of the four bases, with or without underscores, a literal
whose mathematical value (after the sign) lies in `[-2^63, 2^63 - 1]` parses
to exactly that value; in particular `0x10` is 16, `0o10` is 8, `0b10`
is 2, and `10_00` is 1000. -/
theorem claim_c6 :
    (∀ (negative : Bool) (b : Nat) (l : List Nat),
        49 ≤ b → b ≤ 57 → (∀ x ∈ l, x = 95 ∨ (48 ≤ x ∧ x ≤ 57)) →
        i64Min ≤ (if negative = true then -(val10 0 (b :: l)) else val10 0 (b :: l)) →
        (if negative = true then -(val10 0 (b :: l)) else val10 0 (b :: l)) ≤ i64Max →
        parse_number negative (b :: l) =
          .ok (.Integer (if negative = true then -(val10 0 (b :: l)) else val10 0 (b :: l)), []))
  ∧ (∀ negative : Bool, parse_number negative (bytes "0") = .ok (.Integer 0, []))
  ∧ (∀ (negative : Bool) (l : List Nat),
        (∀ x ∈ l, x = 95 ∨ 48 ≤ x ∧ x ≤ 57 ∨ 65 ≤ x ∧ x ≤ 70 ∨ 97 ≤ x ∧ x ≤ 102) →
        i64Min ≤ (if negative = true then -(valM 16 hexMatcher 0 l) else valM 16 hexMatcher 0 l) →
        (if negative = true then -(valM 16 hexMatcher 0 l) else valM 16 hexMatcher 0 l) ≤ i64Max →
        parse_number negative (48 :: 120 :: l) =
          .ok (.Integer (if negative = true then -(valM 16 hexMatcher 0 l) else valM 16 hexMatcher 0 l), []))
  ∧ (∀ (negative : Bool) (l : List Nat),
        (∀ x ∈ l, x = 95 ∨ 48 ≤ x ∧ x ≤ 55) →
        i64Min ≤ (if negative = true then -(valM 8 octMatcher 0 l) else valM 8 octMatcher 0 l) →
        (if negative = true then -(valM 8 octMatcher 0 l) else valM 8 octMatcher 0 l) ≤ i64Max →
        parse_number negative (48 :: 111 :: l) =
          .ok (.Integer (if negative = true then -(valM 8 octMatcher 0 l) else valM 8 octMatcher 0 l), []))
  ∧ (∀ (negative : Bool) (l : List Nat),
        (∀ x ∈ l, x = 95 ∨ x = 48 ∨ x = 49) →
        i64Min ≤ (if negative = true then -(valM 2 binMatcher 0 l) else valM 2 binMatcher 0 l) →
        (if negative = true then -(valM 2 binMatcher 0 l) else valM 2 binMatcher 0 l) ≤ i64Max →
        parse_number negative (48 :: 98 :: l) =
          .ok (.Integer (if negative = true then -(valM 2 binMatcher 0 l) else valM 2 binMatcher 0 l), []))
  ∧ parse_number false (bytes "0x10") = .ok (.Integer 16, [])
  ∧ parse_number false (bytes "0o10") = .ok (.Integer 8, [])
  ∧ parse_number false (bytes "0b10") = .ok (.Integer 2, [])
  ∧ parse_number false (bytes "10_00") = .ok (.Integer 1000, []) := by
  refine ⟨?_, fun negative => rfl, ?_, ?_, ?_, rfl, rfl, rfl, rfl⟩
  · intro negative b l h49 h57 hl hlo hhi
    rw [parse_number_decimal negative b l h49 h57]
    have hl2 : ∀ x ∈ b :: l, x = 95 ∨ (48 ≤ x ∧ x ≤ 57) := by
      intro x hx
      rcases List.mem_cons.1 hx with h | h
      · subst h; right; omega
      · exact hl x h
    have hloop := decLoop_digits negative (b :: l) hl2 [] 0 le_rfl
      (by norm_num [i64Min])
    rw [neg_zero] at hloop
    have hV0 : (0 : Int) ≤ val10 0 (b :: l) := val10_mono (b :: l) 0 le_rfl
    rw [hloop, intQuad_eval (fun n => (.ok (.Integer n, []) :
      Except TomlErrorKind (TomlValue × List Nat))) (.error .NumberTooLarge)
      negative (val10 0 (b :: l)) hV0 hlo hhi]
  · intro negative l hl hlo hhi
    have hV0 : (0 : Int) ≤ valM 16 hexMatcher 0 l := by
      refine valM_mono 16 hexMatcher (by norm_num) l ?_ 0 le_rfl
      intro x hx hne d hd
      rcases hexMatcher_valid l hl x hx with h95 | ⟨_, d2, hd2, hd0, _⟩
      · exact absurd h95 hne
      · rw [hd] at hd2; injection hd2 with he; omega
    have hpb := parse_int_with_base_digits 16 hexMatcher (by norm_num) negative l
      (hexMatcher_valid l hl)
    rw [intQuad_eval (fun n => (.ok (n, []) : Except TomlErrorKind (Int × List Nat)))
      (.error .NumberTooLarge) negative (valM 16 hexMatcher 0 l) hV0 hlo hhi] at hpb
    rw [parse_number_hex negative l]
    simp only [parse_hex_int, hpb]
  · intro negative l hl hlo hhi
    have hV0 : (0 : Int) ≤ valM 8 octMatcher 0 l := by
      refine valM_mono 8 octMatcher (by norm_num) l ?_ 0 le_rfl
      intro x hx hne d hd
      rcases octMatcher_valid l hl x hx with h95 | ⟨_, d2, hd2, hd0, _⟩
      · exact absurd h95 hne
      · rw [hd] at hd2; injection hd2 with he; omega
    have hpb := parse_int_with_base_digits 8 octMatcher (by norm_num) negative l
      (octMatcher_valid l hl)
    rw [intQuad_eval (fun n => (.ok (n, []) : Except TomlErrorKind (Int × List Nat)))
      (.error .NumberTooLarge) negative (valM 8 octMatcher 0 l) hV0 hlo hhi] at hpb
    rw [parse_number_oct negative l]
    simp only [parse_oct_int, hpb]
  · intro negative l hl hlo hhi
    have hV0 : (0 : Int) ≤ valM 2 binMatcher 0 l := by
      refine valM_mono 2 binMatcher (by norm_num) l ?_ 0 le_rfl
      intro x hx hne d hd
      rcases binMatcher_valid l hl x hx with h95 | ⟨_, d2, hd2, hd0, _⟩
      · exact absurd h95 hne
      · rw [hd] at hd2; injection hd2 with he; omega
    have hpb := parse_int_with_base_digits 2 binMatcher (by norm_num) negative l
      (binMatcher_valid l hl)
    rw [intQuad_eval (fun n => (.ok (n, []) : Except TomlErrorKind (Int × List Nat)))
      (.error .NumberTooLarge) negative (valM 2 binMatcher 0 l) hV0 hlo hhi] at hpb
    rw [parse_number_bin negative l]
    simp only [parse_bin_int, hpb]

set_option maxRecDepth 100000 in
/-- Witness for C6: the universal parts applied at the concrete literals
named by the claim, plus `-2^63` through the decimal route. -/
theorem claim_c6_witness :
    parse_number false (bytes "1_024") = .ok (.Integer 1024, [])
  ∧ parse_number true (bytes "9223372036854775808") = .ok (.Integer (-(2 ^ 63)), [])
  ∧ parse_number true (bytes "0x10") = .ok (.Integer (-16), [])
  ∧ parse_number false (bytes "0o777") = .ok (.Integer 511, [])
  ∧ parse_number true (bytes "0b1_01") = .ok (.Integer (-5), []) := by
  refine ⟨?_, ?_, ?_, ?_, ?_⟩
  · exact claim_c6.1 false 49 (bytes "_024") (by norm_num) (by norm_num)
      (by decide) (by decide) (by decide)
  · exact claim_c6.1 true 57 (bytes "223372036854775808") (by norm_num) (by norm_num)
      (by decide) (by decide) (by decide)
  · exact claim_c6.2.2.1 true (bytes "10") (by decide) (by decide) (by decide)
  · exact claim_c6.2.2.2.1 false (bytes "777") (by decide) (by decide) (by decide)
  · exact claim_c6.2.2.2.2.1 true (bytes "1_01") (by decide) (by decide) (by decide)

/-- C4 (divergence): on a fraction of exactly nine digits the `parse_time`
fraction loop contributes all nine digits but multiplies once too often
(`NANOSECOND_DIGIT = 8` with an add-then-multiply accumulator), so
`12:30:45.123456789` yields nanosecond `1234567890 = 10 * 123456789`, which
is ten times the mathematical nanosecond value and lies outside
`[0, 10^9)`. -/
theorem claim_c4 :
    parse_number false (bytes "12:30:45.123456789") =
      .ok (.Time ⟨12, 30, 45, 1234567890⟩, [])
  ∧ 10 ^ 9 ≤ 1234567890 := ⟨rfl, by norm_num⟩

/-- C8 (divergence): a sign in front of a date or time literal is accepted,
not rejected: `parse_sign` consumes the sign and the date/time recognition
in `parse_number` still fires (its `start` is reset after the sign), as the
`TODO` comment at the top of `src/parser/num.rs` concedes.  `-1979-05-27`
parses to the date 1979-05-27 and `+07:32:00` to the time 07:32:00, the
sign silently discarded. -/
theorem claim_c8 :
    parse_sign (bytes "-1979-05-27") = .ok (.Date ⟨1979, 5, 27⟩, [])
  ∧ parse_sign (bytes "+07:32:00") = .ok (.Time ⟨7, 32, 0, 0⟩, []) := ⟨rfl, rfl⟩

/-! ## The FromToml adaptor contract (`src/convert_traits.rs`) -/

/-- `FromTomlError` from `src/convert_traits.rs`.  `TypeMismatch` carries
the offending value and the expectation, as in the source. -/
inductive FromTomlError where
  | Missing
  | InvalidKey (k : String)
  | TypeMismatch (v : TomlValue) (ty : TomlValueType)

/-- `FromTomlError::add_key_context` from `src/convert_traits.rs`:
`Missing` becomes `InvalidKey(key)`; everything else is returned
unchanged. -/
def FromTomlError.add_key_context : FromTomlError → String → FromTomlError
  | .Missing, key => .InvalidKey key
  | other, _ => other

/-- C9: propagating through a key `k` turns `Missing` into `InvalidKey k`
and leaves `InvalidKey` and `TypeMismatch` errors untouched. -/
theorem claim_c9 :
    (∀ k : String, FromTomlError.add_key_context .Missing k = .InvalidKey k)
  ∧ (∀ (k k' : String), FromTomlError.add_key_context (.InvalidKey k') k = .InvalidKey k')
  ∧ (∀ (k : String) (v : TomlValue) (ty : TomlValueType),
      FromTomlError.add_key_context (.TypeMismatch v ty) k = .TypeMismatch v ty) :=
  ⟨fun _ => rfl, fun _ _ => rfl, fun _ _ _ => rfl⟩

/-- Witness for C9 at concrete arguments. -/
theorem claim_c9_witness :
    FromTomlError.add_key_context .Missing "name" = .InvalidKey "name"
  ∧ FromTomlError.add_key_context (.InvalidKey "inner") "outer" = .InvalidKey "inner"
  ∧ FromTomlError.add_key_context (.TypeMismatch (.Integer 3) .String) "k" =
      .TypeMismatch (.Integer 3) .String :=
  ⟨claim_c9.1 "name", claim_c9.2.1 "outer" "inner", claim_c9.2.2 "k" (.Integer 3) .String⟩

/-! ## Boolean coercion (`src/types.rs`, `TomlValue::coerce_bool`) -/

/-- `TomlValue::coerce_bool` from `src/types.rs`: booleans pass through;
the strings `true`/`True`/`false`/`False` convert; integers and floats
equal to 0 or 1 convert; everything else is `None`.  The float comparisons
are the IEEE `== 0.0` / `== 1.0` of the source. -/
def TomlValue.coerce_bool : TomlValue → Option Bool
  | .Boolean b => some b
  | .String s =>
    if s.as_str = bytes "true" ∨ s.as_str = bytes "True" then some true
    else if s.as_str = bytes "false" ∨ s.as_str = bytes "False" then some false
    else none
  | .Integer n => if n = 0 then some false else if n = 1 then some true else none
  | .Float f =>
    if F64.ieeeEq f (.finite false 0) then some false
    else if F64.ieeeEq f (.finite false 1) then some true
    else none
  | _ => none

/-- C10: `coerce_bool` returns `some true` exactly for `Boolean true`, the
strings `true`/`True`, `Integer 1`, and floats IEEE-equal to `1.0`; it
returns `some false` exactly for `Boolean false`, the strings
`false`/`False`, `Integer 0`, and floats IEEE-equal to `0.0`; and `none`
in every other case. -/
theorem claim_c10 (v : TomlValue) :
    (v.coerce_bool = some true ↔
      v = .Boolean true ∨ (∃ s, v = .String s ∧ (s.as_str = bytes "true" ∨ s.as_str = bytes "True")) ∨
      v = .Integer 1 ∨ ∃ f, v = .Float f ∧ F64.ieeeEq f (.finite false 1) = true)
  ∧ (v.coerce_bool = some false ↔
      v = .Boolean false ∨ (∃ s, v = .String s ∧ (s.as_str = bytes "false" ∨ s.as_str = bytes "False")) ∨
      v = .Integer 0 ∨ ∃ f, v = .Float f ∧ F64.ieeeEq f (.finite false 0) = true) := by
  cases v with
  | Boolean b =>
    cases b <;> simp [TomlValue.coerce_bool]
  | String s =>
    constructor
    · constructor
      · intro h
        simp only [TomlValue.coerce_bool] at h
        by_cases h1 : s.as_str = bytes "true" ∨ s.as_str = bytes "True"
        · exact Or.inr (Or.inl ⟨s, rfl, h1⟩)
        · rw [if_neg h1] at h
          by_cases h2 : s.as_str = bytes "false" ∨ s.as_str = bytes "False"
          · rw [if_pos h2] at h; exact absurd h (by simp)
          · rw [if_neg h2] at h; exact absurd h (by simp)
      · intro h
        rcases h with h | ⟨s2, h, hs⟩ | h | ⟨f, h, _⟩
        · injection h
        · injection h with h2
          subst h2
          simp [TomlValue.coerce_bool, if_pos hs]
        · injection h
        · injection h
    · constructor
      · intro h
        simp only [TomlValue.coerce_bool] at h
        by_cases h1 : s.as_str = bytes "true" ∨ s.as_str = bytes "True"
        · rw [if_pos h1] at h; exact absurd h (by simp)
        · rw [if_neg h1] at h
          by_cases h2 : s.as_str = bytes "false" ∨ s.as_str = bytes "False"
          · exact Or.inr (Or.inl ⟨s, rfl, h2⟩)
          · rw [if_neg h2] at h; exact absurd h (by simp)
      · intro h
        rcases h with h | ⟨s2, h, hs⟩ | h | ⟨f, h, _⟩
        · injection h
        · injection h with h2
          subst h2
          have h1 : ¬(s.as_str = bytes "true" ∨ s.as_str = bytes "True") := by
            rcases hs with hs | hs <;> rw [hs] <;> decide
          simp only [TomlValue.coerce_bool]
          rw [if_neg h1, if_pos hs]
        · injection h
        · injection h
  | Integer n =>
    constructor
    · constructor
      · intro h
        simp only [TomlValue.coerce_bool] at h
        by_cases h0 : n = 0
        · rw [if_pos h0] at h; exact absurd h (by simp)
        · rw [if_neg h0] at h
          by_cases h1 : n = 1
          · simp [h1]
          · rw [if_neg h1] at h; exact absurd h (by simp)
      · intro h
        rcases h with h | ⟨s2, h, -⟩ | h | ⟨f, h, -⟩ <;> first
          | (injection h with h2; subst h2; decide)
          | (injection h)
    · constructor
      · intro h
        simp only [TomlValue.coerce_bool] at h
        by_cases h0 : n = 0
        · simp [h0]
        · rw [if_neg h0] at h
          by_cases h1 : n = 1
          · rw [if_pos h1] at h; exact absurd h (by simp)
          · rw [if_neg h1] at h; exact absurd h (by simp)
      · intro h
        rcases h with h | ⟨s2, h, -⟩ | h | ⟨f, h, -⟩ <;> first
          | (injection h with h2; subst h2; decide)
          | (injection h)
  | Float f =>
    constructor
    · constructor
      · intro h
        simp only [TomlValue.coerce_bool] at h
        by_cases h0 : F64.ieeeEq f (.finite false 0) = true
        · rw [if_pos h0] at h; exact absurd h (by simp)
        · rw [if_neg h0] at h
          by_cases h1 : F64.ieeeEq f (.finite false 1) = true
          · exact Or.inr (Or.inr (Or.inr ⟨f, rfl, h1⟩))
          · rw [if_neg h1] at h; exact absurd h (by simp)
      · intro h
        rcases h with h | ⟨s2, h, -⟩ | h | ⟨f2, h, hf⟩
        · injection h
        · injection h
        · injection h
        · injection h with h2
          subst h2
          have h0 : F64.ieeeEq f (.finite false 0) = false := by
            cases f with
            | nan s => simp [F64.ieeeEq]
            | inf s => simp [F64.ieeeEq]
            | finite s m =>
              simp only [F64.ieeeEq] at hf ⊢
              simp only [decide_eq_true_eq] at hf
              simp only [decide_eq_false_iff_not]
              intro hc
              rw [hf] at hc
              norm_num at hc
          simp [TomlValue.coerce_bool, h0, hf]
    · constructor
      · intro h
        simp only [TomlValue.coerce_bool] at h
        by_cases h0 : F64.ieeeEq f (.finite false 0) = true
        · exact Or.inr (Or.inr (Or.inr ⟨f, rfl, h0⟩))
        · rw [if_neg h0] at h
          by_cases h1 : F64.ieeeEq f (.finite false 1) = true
          · rw [if_pos h1] at h; exact absurd h (by simp)
          · rw [if_neg h1] at h; exact absurd h (by simp)
      · intro h
        rcases h with h | ⟨s2, h, -⟩ | h | ⟨f2, h, hf⟩
        · injection h
        · injection h
        · injection h
        · injection h with h2
          subst h2
          simp [TomlValue.coerce_bool, hf]
  | Time t => simp [TomlValue.coerce_bool]
  | Date d => simp [TomlValue.coerce_bool]
  | DateTime dt => simp [TomlValue.coerce_bool]
  | OffsetDateTime odt => simp [TomlValue.coerce_bool]
  | Array xs aot => simp [TomlValue.coerce_bool]
  | Table entries => simp [TomlValue.coerce_bool]

/-- Witness for C10 at concrete values, including `-0.0` (IEEE-equal to
`0.0`, hence coerced to `false`). -/
theorem claim_c10_witness :
    (TomlValue.Integer 1).coerce_bool = some true
  ∧ (TomlValue.String (.Raw (bytes "False"))).coerce_bool = some false
  ∧ (TomlValue.Float (.finite true 0)).coerce_bool = some false := by
  refine ⟨?_, ?_, ?_⟩
  · exact (claim_c10 (.Integer 1)).1.2 (Or.inr (Or.inr (Or.inl rfl)))
  · exact (claim_c10 _).2.2 (Or.inr (Or.inl ⟨_, rfl, Or.inr rfl⟩))
  · exact (claim_c10 _).2.2 (Or.inr (Or.inr (Or.inr ⟨_, rfl, by decide⟩)))

/-! ## String parsing (`src/parser/string.rs`) -/

/-- `Text::skip_whitespace_allow_comments` from `src/text.rs`: consumes
tab, space, LF and CR, and stops at anything else. -/
def skip_whitespace_allow_comments : List Nat → List Nat
  | [] => []
  | b :: rest =>
    if b = 9 ∨ b = 32 ∨ b = 10 ∨ b = 13 then skip_whitespace_allow_comments rest
    else b :: rest

theorem skip_whitespace_allow_comments_length (l : List Nat) :
    (skip_whitespace_allow_comments l).length ≤ l.length := by
  induction l with
  | nil => simp [skip_whitespace_allow_comments]
  | cons b rest ih =>
    simp only [skip_whitespace_allow_comments]
    by_cases h : b = 9 ∨ b = 32 ∨ b = 10 ∨ b = 13
    · rw [if_pos h]; simp; omega
    · rw [if_neg h]

/-- A hexadecimal digit of `u32::from_str_radix(_, 16)`. -/
def hexDigitVal (b : Nat) : Option Nat :=
  if 48 ≤ b ∧ b ≤ 57 then some (b - 48)
  else if 65 ≤ b ∧ b ≤ 70 then some (b - 55)
  else if 97 ≤ b ∧ b ≤ 102 then some (b - 87)
  else none

/-- `u32::from_str_radix(s, 16)` on a short byte string (a leading `+` is
permitted by the Rust parser; at most eight digits reach this model, so
`u32` overflow cannot occur). -/
def fromStrRadix16 (l : List Nat) : Option Nat :=
  let l2 := if l.head? = some 43 then l.drop 1 else l
  if l2 = [] then none
  else l2.foldl (fun acc b => match acc, hexDigitVal b with
    | some a, some d => some (a * 16 + d)
    | _, _ => none) (some 0)

/-- `char::from_u32`: valid Unicode scalar values. -/
def charFromU32 (n : Nat) : Option Nat :=
  if n < 1114112 ∧ ¬(55296 ≤ n ∧ n ≤ 57343) then some n else none

/-- UTF-8 encoding of a scalar value (`char::encode_utf8`). -/
def utf8Encode (n : Nat) : List Nat :=
  if n < 128 then [n]
  else if n < 2048 then [192 + n / 64, 128 + n % 64]
  else if n < 65536 then [224 + n / 4096, 128 + n / 64 % 64, 128 + n % 64]
  else [240 + n / 262144, 128 + n / 4096 % 64, 128 + n / 64 % 64, 128 + n % 64]

/-- The `\u` / `\U` arm of `string_escape`: `count` hex digits are read,
converted with `char::from_u32`, and pushed UTF-8 encoded; any failure is
`UnknownUnicodeScalar`. -/
def string_escape_unicode (rest : List Nat) (count : Nat) :
    Except TomlErrorKind (List Nat × List Nat) :=
  if rest.length < count then .error .UnknownUnicodeScalar
  else
    match fromStrRadix16 (rest.take count) with
    | none => .error .UnknownUnicodeScalar
    | some n =>
      match charFromU32 n with
      | none => .error .UnknownUnicodeScalar
      | some c => .ok (utf8Encode c, rest.drop count)

theorem string_escape_unicode_length (rest : List Nat) (count : Nat) (p r : List Nat)
    (h : string_escape_unicode rest count = .ok (p, r)) : r.length ≤ rest.length := by
  unfold string_escape_unicode at h
  by_cases hc : rest.length < count
  · rw [if_pos hc] at h; exact absurd h (by simp)
  · rw [if_neg hc] at h
    cases hfr : fromStrRadix16 (rest.take count) with
    | none => simp only [hfr] at h; exact absurd h (by simp)
    | some n =>
      simp only [hfr] at h
      cases hcf : charFromU32 n with
      | none => simp only [hcf] at h; exact absurd h (by simp)
      | some c =>
        simp only [hcf] at h
        injection h with h2
        injection h2 with h3 h4
        subst h4
        rw [List.length_drop]
        omega

/-- The byte-dispatch of `string_escape` (`src/parser/string.rs`), after the
backslash: `b` is the escape selector, `rest` the text after it.  Returns
the bytes pushed onto the output and the remaining text. -/
def string_escape_byte (MULTILINE : Bool) (b : Nat) (rest : List Nat) :
    Except TomlErrorKind (List Nat × List Nat) :=
  if b = 98 then .ok ([8], rest)
  else if b = 116 then .ok ([9], rest)
  else if b = 110 then .ok ([10], rest)
  else if b = 102 then .ok ([12], rest)
  else if b = 114 then .ok ([13], rest)
  else if b = 34 then .ok ([34], rest)
  else if b = 92 then .ok ([92], rest)
  else if b = 117 then string_escape_unicode rest 4
  else if b = 85 then string_escape_unicode rest 8
  else if MULTILINE = true ∧ isAsciiWhitespace b = true then
    .ok ([], skip_whitespace_allow_comments (b :: rest))
  else .error .UnknownEscapeSequence

/-- `string_escape` from `src/parser/string.rs`.  The cursor sits on the
backslash (a debug assertion in the source); running off the end of the text
is `UnknownEscapeSequence`. -/
def string_escape (MULTILINE : Bool) : List Nat → Except TomlErrorKind (List Nat × List Nat)
  | [] => .error .UnknownEscapeSequence
  | _ :: tail =>
    match tail with
    | [] => .error .UnknownEscapeSequence
    | b :: rest => string_escape_byte MULTILINE b rest

set_option maxHeartbeats 1000000 in
theorem string_escape_byte_length (MULTILINE : Bool) (b : Nat) (rest : List Nat)
    (p r : List Nat) (h : string_escape_byte MULTILINE b rest = .ok (p, r)) :
    r.length ≤ rest.length + 1 := by
  unfold string_escape_byte at h
  split_ifs at h
  all_goals try (injection h with h2; injection h2 with h3 h4; subst h4)
  all_goals try omega
  all_goals try (exact Nat.le_succ_of_le (string_escape_unicode_length rest 4 p r h))
  all_goals try (exact Nat.le_succ_of_le (string_escape_unicode_length rest 8 p r h))
  all_goals simpa using skip_whitespace_allow_comments_length (b :: rest)

theorem string_escape_length (MULTILINE : Bool) (l p r : List Nat)
    (h : string_escape MULTILINE l = .ok (p, r)) : r.length < l.length := by
  match l with
  | [] => exact absurd h (by simp [string_escape])
  | a :: tail =>
    match tail with
    | [] => exact absurd h (by simp [string_escape])
    | b :: rest =>
      simp only [string_escape] at h
      have := string_escape_byte_length MULTILINE b rest p r h
      simp only [List.length_cons]
      omega

/-- The scan loop of `parse_literal_string` (`src/parser/string.rs`):
everything up to the next single quote is the content. -/
def parse_literal_string_loop (acc : List Nat) : List Nat → Except TomlErrorKind (List Nat × List Nat)
  | [] => .error .UnclosedLiteralString
  | b :: rest =>
    if b = 39 then .ok (acc, rest)
    else parse_literal_string_loop (acc ++ [b]) rest

/-- `parse_literal_string` from `src/parser/string.rs`.  The cursor sits on
the opening quote. -/
def parse_literal_string (l : List Nat) : Except TomlErrorKind (List Nat × List Nat) :=
  parse_literal_string_loop [] (l.drop 1)

/-- The scan loop of `parse_multiline_literal_string`: a quote followed by
two more quotes closes the literal, and one or two quotes directly after
the closing triple extend the content (the source extends the span end by
one byte per extra quote, which lands on a quote byte each time). -/
def parse_multiline_literal_loop (acc : List Nat) : List Nat → Except TomlErrorKind (List Nat × List Nat)
  | [] => .error .UnclosedLiteralString
  | b :: rest =>
    if b = 39 ∧ rest.take 2 = [39, 39] then
      match rest.drop 2 with
      | 39 :: r1 =>
        match r1 with
        | 39 :: r2 => .ok (acc ++ [39, 39], r2)
        | r1x => .ok (acc ++ [39], r1x)
      | r0 => .ok (acc, r0)
    else parse_multiline_literal_loop (acc ++ [b]) rest

/-- `parse_multiline_literal_string` from `src/parser/string.rs`: skip the
opening triple, discard one directly following newline, then scan. -/
def parse_multiline_literal_string (l : List Nat) : Except TomlErrorKind (List Nat × List Nat) :=
  let l1 := l.drop 3
  let l2 := if l1.head? = some 10 then l1.drop 1 else l1
  parse_multiline_literal_loop [] l2

/-- The owned-accumulation loop of `parse_basic_string` (taken after the
first backslash): bytes are pushed, escapes decoded, a quote closes. -/
def parse_basic_mod_loop (str : List Nat) (l : List Nat) : Except TomlErrorKind (List Nat × List Nat) :=
  match l with
  | [] => .error .UnclosedBasicString
  | b :: rest =>
    if b = 34 then .ok (str, rest)
    else if b = 92 then
      match _h : string_escape false (b :: rest) with
      | .error e => .error e
      | .ok (p, r) => parse_basic_mod_loop (str ++ p) r
    else parse_basic_mod_loop (str ++ [b]) rest
termination_by l.length
decreasing_by
  all_goals try simp_wf
  all_goals first
    | omega
    | (exact string_escape_length _ _ _ _ (by assumption))

/-- The zero-copy scan loop of `parse_basic_string`
(`src/parser/string.rs`): content up to the closing quote is a `Raw` span
unless a backslash switches to owned accumulation. -/
def parse_basic_loop (acc : List Nat) : List Nat → Except TomlErrorKind (CowSpan × List Nat)
  | [] => .error .UnclosedBasicString
  | b :: rest =>
    if b = 34 then .ok (.Raw acc, rest)
    else if b = 92 then
      match string_escape false (b :: rest) with
      | .error e => .error e
      | .ok (p, r) =>
        match parse_basic_mod_loop (acc ++ p) r with
        | .error e => .error e
        | .ok (s, r2) => .ok (.Modified s, r2)
    else parse_basic_loop (acc ++ [b]) rest

/-- `parse_basic_string` from `src/parser/string.rs`.  The cursor sits on
the opening quote. -/
def parse_basic_string (l : List Nat) : Except TomlErrorKind (CowSpan × List Nat) :=
  parse_basic_loop [] (l.drop 1)

/-- The owned-accumulation loop of `parse_multiline_basic_string`: as the
single-line one, but the close is a quote triple with up to two extra
content quotes, and escapes use the multi-line rules. -/
def parse_mbasic_mod_loop (str : List Nat) (l : List Nat) : Except TomlErrorKind (List Nat × List Nat) :=
  match l with
  | [] => .error .UnclosedBasicString
  | b :: rest =>
    if b = 34 ∧ rest.take 2 = [34, 34] then
      match rest.drop 2 with
      | 34 :: r1 =>
        match r1 with
        | 34 :: r2 => .ok (str ++ [34, 34], r2)
        | r1x => .ok (str ++ [34], r1x)
      | r0 => .ok (str, r0)
    else if b = 92 then
      match _h : string_escape true (b :: rest) with
      | .error e => .error e
      | .ok (p, r) => parse_mbasic_mod_loop (str ++ p) r
    else parse_mbasic_mod_loop (str ++ [b]) rest
termination_by l.length
decreasing_by
  all_goals try simp_wf
  all_goals first
    | omega
    | (exact string_escape_length _ _ _ _ (by assumption))

/-- The zero-copy scan loop of `parse_multiline_basic_string`
(`src/parser/string.rs`). -/
def parse_mbasic_loop (acc : List Nat) : List Nat → Except TomlErrorKind (CowSpan × List Nat)
  | [] => .error .UnclosedBasicString
  | b :: rest =>
    if b = 34 ∧ rest.take 2 = [34, 34] then
      match rest.drop 2 with
      | 34 :: r1 =>
        match r1 with
        | 34 :: r2 => .ok (.Raw (acc ++ [34, 34]), r2)
        | r1x => .ok (.Raw (acc ++ [34]), r1x)
      | r0 => .ok (.Raw acc, r0)
    else if b = 92 then
      match string_escape true (b :: rest) with
      | .error e => .error e
      | .ok (p, r) =>
        match parse_mbasic_mod_loop (acc ++ p) r with
        | .error e => .error e
        | .ok (s, r2) => .ok (.Modified s, r2)
    else parse_mbasic_loop (acc ++ [b]) rest

/-- `parse_multiline_basic_string` from `src/parser/string.rs`: skip the
opening triple, discard one directly following newline, then scan. -/
def parse_multiline_basic_string (l : List Nat) : Except TomlErrorKind (CowSpan × List Nat) :=
  let l1 := l.drop 3
  let l2 := if l1.head? = some 10 then l1.drop 1 else l1
  parse_mbasic_loop [] l2

/-- `parse_string` from `src/parser/string.rs`: dispatch on the opening
delimiter (the source's final arm is unreachable from its callers; it is
modelled as `UnrecognisedValue`). -/
def parse_string (l : List Nat) : Except TomlErrorKind (CowSpan × List Nat) :=
  if l.head? = some 39 then
    if l.take 3 = [39, 39, 39] then
      match parse_multiline_literal_string l with
      | .error e => .error e
      | .ok (s, r) => .ok (.Raw s, r)
    else
      match parse_literal_string l with
      | .error e => .error e
      | .ok (s, r) => .ok (.Raw s, r)
  else if l.head? = some 34 then
    if l.take 3 = [34, 34, 34] then parse_multiline_basic_string l
    else parse_basic_string l
  else .error .UnrecognisedValue


/-- Scan lemma for the multi-line literal closing rule: quote-free content
followed by `3 + k` quotes (`k ≤ 2`) closes at the first triple and turns
the `k` extra quotes into content. -/
theorem parse_multiline_literal_loop_close (k : Nat) (hk : k ≤ 2) :
    ∀ (c : List Nat), (∀ b ∈ c, b ≠ 39) → ∀ acc,
      parse_multiline_literal_loop acc (c ++ List.replicate (3 + k) 39) =
        .ok (acc ++ c ++ List.replicate k 39, []) := by
  intro c
  induction c with
  | nil =>
    intro _ acc
    interval_cases k
    · simp [parse_multiline_literal_loop, List.replicate]
    · simp [parse_multiline_literal_loop, List.replicate]
    · simp [parse_multiline_literal_loop, List.replicate]
  | cons b c ih =>
    intro hq acc
    have hb : b ≠ 39 := hq b (List.mem_cons_self b c)
    have hc : ∀ x ∈ c, x ≠ 39 := fun x hx => hq x (List.mem_cons_of_mem b hx)
    have hstep : parse_multiline_literal_loop acc ((b :: c) ++ List.replicate (3 + k) 39) =
        parse_multiline_literal_loop (acc ++ [b]) (c ++ List.replicate (3 + k) 39) := by
      simp only [List.cons_append, parse_multiline_literal_loop]
      rw [if_neg (by rintro ⟨h1, -⟩; exact hb h1)]
      rfl
    rw [hstep, ih hc (acc ++ [b])]
    simp

/-- Scan lemma for the multi-line basic closing rule on content free of
quotes and backslashes. -/
theorem parse_mbasic_loop_close (k : Nat) (hk : k ≤ 2) :
    ∀ (c : List Nat), (∀ b ∈ c, b ≠ 34 ∧ b ≠ 92) → ∀ acc,
      parse_mbasic_loop acc (c ++ List.replicate (3 + k) 34) =
        .ok (.Raw (acc ++ c ++ List.replicate k 34), []) := by
  intro c
  induction c with
  | nil =>
    intro _ acc
    interval_cases k
    · simp [parse_mbasic_loop, List.replicate]
    · simp [parse_mbasic_loop, List.replicate]
    · simp [parse_mbasic_loop, List.replicate]
  | cons b c ih =>
    intro hq acc
    have hb := hq b (List.mem_cons_self b c)
    have hc : ∀ x ∈ c, x ≠ 34 ∧ x ≠ 92 := fun x hx => hq x (List.mem_cons_of_mem b hx)
    have hstep : parse_mbasic_loop acc ((b :: c) ++ List.replicate (3 + k) 34) =
        parse_mbasic_loop (acc ++ [b]) (c ++ List.replicate (3 + k) 34) := by
      simp only [List.cons_append, parse_mbasic_loop]
      rw [if_neg (by rintro ⟨h1, -⟩; exact hb.1 h1), if_neg hb.2]
      rfl
    rw [hstep, ih hc (acc ++ [b])]
    simp

/-- C7: in both multi-line string flavors, the first quote triple closes the
literal, and one or two identical quotes directly after it become string
content, so a closing run of up to five quotes is accepted and the extra
quotes appear in the decoded value.  `c` is the preceding content (free of
the delimiter, and of backslashes for the basic flavor, with no leading
newline to trim). -/
theorem claim_c7 :
    (∀ (c : List Nat) (k : Nat), k ≤ 2 → (∀ b ∈ c, b ≠ 39) → c.head? ≠ some 10 →
      parse_multiline_literal_string ([39, 39, 39] ++ c ++ List.replicate (3 + k) 39) =
        .ok (c ++ List.replicate k 39, []))
  ∧ (∀ (c : List Nat) (k : Nat), k ≤ 2 → (∀ b ∈ c, b ≠ 34 ∧ b ≠ 92) → c.head? ≠ some 10 →
      parse_multiline_basic_string ([34, 34, 34] ++ c ++ List.replicate (3 + k) 34) =
        .ok (.Raw (c ++ List.replicate k 34), [])) := by
  constructor
  · intro c k hk hq hn
    have hdrop : (([39, 39, 39] ++ c ++ List.replicate (3 + k) 39).drop 3) =
        c ++ List.replicate (3 + k) 39 := by simp
    have hhead : (c ++ List.replicate (3 + k) 39).head? ≠ some 10 := by
      cases c with
      | nil =>
        have h3 : 3 + k = (k + 2) + 1 := by omega
        rw [List.nil_append, h3, List.replicate_succ]
        simp
      | cons b cr => simpa using hn
    simp only [parse_multiline_literal_string, hdrop]
    rw [if_neg hhead]
    have := parse_multiline_literal_loop_close k hk c hq []
    simpa using this
  · intro c k hk hq hn
    have hdrop : (([34, 34, 34] ++ c ++ List.replicate (3 + k) 34).drop 3) =
        c ++ List.replicate (3 + k) 34 := by simp
    have hhead : (c ++ List.replicate (3 + k) 34).head? ≠ some 10 := by
      cases c with
      | nil =>
        have h3 : 3 + k = (k + 2) + 1 := by omega
        rw [List.nil_append, h3, List.replicate_succ]
        simp
      | cons b cr => simpa using hn
    simp only [parse_multiline_basic_string, hdrop]
    rw [if_neg hhead]
    have := parse_mbasic_loop_close k hk c hq []
    simpa using this

/-- Witness for C7: both parts applied with content `ab` and two extra
closing quotes (five consecutive quotes at the end). -/
theorem claim_c7_witness :
    parse_multiline_literal_string (bytes "'''ab'''''") = .ok (bytes "ab''", [])
  ∧ parse_multiline_basic_string (bytes "\"\"\"ab\"\"\"\"\"") =
      .ok (.Raw (bytes "ab\"\""), []) := by
  constructor
  · exact claim_c7.1 (bytes "ab") 2 (by norm_num) (by decide) (by decide)
  · exact claim_c7.2 (bytes "ab") 2 (by norm_num) (by decide) (by decide)

/-! ## Whitespace and keys (`src/text.rs`, `src/parser/key.rs`) -/

/-- `Text::skip_current_line` from `src/text.rs`: advance to the next LF,
leaving the LF itself unconsumed. -/
def skip_current_line : List Nat → List Nat
  | [] => []
  | b :: rest => if b = 10 then b :: rest else skip_current_line rest

/-- The whitespace-consuming loop of `Text::skip_whitespace`: tab, space,
LF and CR. -/
def skip_whitespace_run : List Nat → List Nat
  | [] => []
  | b :: rest =>
    if b = 9 ∨ b = 32 ∨ b = 10 ∨ b = 13 then skip_whitespace_run rest
    else b :: rest

/-- `Text::skip_whitespace` from `src/text.rs`: consume whitespace, and on
a `#` skip the rest of the line and start over.  The structural recursion
is bounded by a fuel that the wrapper sets to more than the input length;
every comment round consumes at least the `#`, so the fuel never runs
out. -/
def skip_whitespaceF : Nat → List Nat → List Nat
  | 0, l => l
  | fuel + 1, l =>
    let l1 := skip_whitespace_run l
    if l1.head? = some 35 then skip_whitespaceF fuel (skip_current_line l1)
    else l1

/-- `Text::skip_whitespace` from `src/text.rs`. -/
def skip_whitespace (l : List Nat) : List Nat :=
  skip_whitespaceF (l.length + 1) l

theorem skip_whitespace_run_append (ws : List Nat)
    (h : ∀ x ∈ ws, x = 9 ∨ x = 32 ∨ x = 10 ∨ x = 13) (rest : List Nat)
    (hr : ∀ b, rest.head? = some b → ¬(b = 9 ∨ b = 32 ∨ b = 10 ∨ b = 13)) :
    skip_whitespace_run (ws ++ rest) = rest := by
  induction ws with
  | nil =>
    cases rest with
    | nil => simp [skip_whitespace_run]
    | cons b r2 =>
      simp only [List.nil_append, skip_whitespace_run]
      rw [if_neg (hr b rfl)]
  | cons w ws2 ih =>
    simp only [List.cons_append, skip_whitespace_run]
    rw [if_pos (h w (List.mem_cons_self w ws2))]
    exact ih (fun x hx => h x (List.mem_cons_of_mem w hx))

/-- `skip_whitespace` over a run of whitespace bytes followed by a byte
that is neither whitespace nor `#`. -/
theorem skip_whitespace_clean (ws : List Nat)
    (h : ∀ x ∈ ws, x = 9 ∨ x = 32 ∨ x = 10 ∨ x = 13) (b : Nat) (rest : List Nat)
    (hb : ¬(b = 9 ∨ b = 32 ∨ b = 10 ∨ b = 13)) (hb35 : b ≠ 35) :
    skip_whitespace (ws ++ b :: rest) = b :: rest := by
  have hrun : skip_whitespace_run (ws ++ b :: rest) = b :: rest :=
    skip_whitespace_run_append ws h (b :: rest)
      (fun x hx => by injection hx with h2; subst h2; exact hb)
  simp only [skip_whitespace, skip_whitespaceF, hrun]
  rw [if_neg (by simp; omega)]

/-- The bare-key byte set `VALID_BARE_KEY_CHARS` from `src/parser/key.rs`
(ASCII letters, digits, `-`, `_`). -/
def isBareKeyChar (b : Nat) : Bool :=
  (48 ≤ b ∧ b ≤ 57) ∨ (65 ≤ b ∧ b ≤ 90) ∨ (97 ≤ b ∧ b ≤ 122) ∨ b = 45 ∨ b = 95

/-- `parse_key` from `src/parser/key.rs`: quoted keys delegate to the
string parsers, bare keys take the longest run of bare-key bytes and must
be nonempty. -/
def parse_key (l : List Nat) : Except TomlErrorKind (CowSpan × List Nat) :=
  if l.head? = some 39 then
    match parse_literal_string l with
    | .error e => .error e
    | .ok (s, r) => .ok (.Raw s, r)
  else if l.head? = some 34 then parse_basic_string l
  else
    let key := l.takeWhile (fun b => isBareKeyChar b)
    let rest := l.dropWhile (fun b => isBareKeyChar b)
    if key = [] then .error .NoKeyInAssignment
    else .ok (.Raw key, rest)

/-! ## Inline tables and values (`src/parser/value.rs`) -/

/-- Association-list get on a table's entries (`HashMap` access keyed by
decoded text). -/
def tableGet : List (List Nat × TomlValue) → List Nat → Option TomlValue
  | [], _ => none
  | (k2, v) :: rest, k => if k2 = k then some v else tableGet rest k

/-- Association-list set (replace or append). -/
def tableSet : List (List Nat × TomlValue) → List Nat → TomlValue → List (List Nat × TomlValue)
  | [], k, v => [(k, v)]
  | (k2, v2) :: rest, k, v =>
    if k2 = k then (k, v) :: rest else (k2, v2) :: tableSet rest k v

/-- Modelled from the spec: `TomlTable::value_entry` (called by the inline
table branch of `parse_value` in `src/parser/value.rs`) is not among the
sources under `src/`.  Per sections 4.4 and 4.7 of the spec it parses a
dotted key — segments separated by `.` with surrounding whitespace — and
this model returns the list of decoded segments. -/
def value_entry_path : Nat → List Nat → Except TomlErrorKind (List (List Nat) × List Nat)
  | 0, _ => .error .NoKeyInAssignment
  | fuel + 1, l =>
    match parse_key l with
    | .error e => .error e
    | .ok (s, r) =>
      let r1 := skip_whitespace r
      if r1.head? = some 46 then
        match value_entry_path fuel (skip_whitespace (r1.drop 1)) with
        | .error e => .error e
        | .ok (path, r2) => .ok (s.as_str :: path, r2)
      else .ok ([s.as_str], r1)

/-- Modelled from the spec: insertion through the entry returned by
`value_entry`.  Per section 4.7 dotted keys create sub-tables within the
inline table, and per section 4.8 a normal assignment requires the final
slot to be vacant (`ReusedKey` otherwise). -/
def inline_table_insert :
    List (List Nat × TomlValue) → List (List Nat) → TomlValue →
      Except TomlErrorKind (List (List Nat × TomlValue))
  | _, [], _ => .error .ReusedKey
  | entries, [k], v =>
    match tableGet entries k with
    | some _ => .error .ReusedKey
    | none => .ok (entries ++ [(k, v)])
  | entries, k :: rest, v =>
    match tableGet entries k with
    | none =>
      match inline_table_insert [] rest v with
      | .error e => .error e
      | .ok sub => .ok (entries ++ [(k, .Table sub)])
    | some (.Table sub) =>
      match inline_table_insert sub rest v with
      | .error e => .error e
      | .ok sub2 => .ok (tableSet entries k (.Table sub2))
    | some _ => .error .ReusedKey

mutual

/-- The array branch loop of `parse_value` (`src/parser/value.rs`,
lines 12-55), transcribed with its `skip_whitespace` calls (which cross
newlines and comments).  The fuel only bounds recursion; the wrapper passes
more fuel than the input length and every round consumes input, so the
fuel-exhaustion branch is unreachable through `parse_value`. -/
def parseArrayLoopF : Nat → List TomlValue → List Nat →
    Except TomlErrorKind (TomlValue × List Nat)
  | 0, _, _ => .error .UnrecognisedValue
  | fuel + 1, acc, l =>
    let l1 := skip_whitespace l
    match l1.head? with
    | some 93 => .ok (.Array acc false, l1.drop 1)
    | none => .error .UnclosedArrayBracket
    | some _ =>
      match parseValueF fuel l1 with
      | .error e => .error e
      | .ok (v, l2) =>
        let l3 := skip_whitespace l2
        match l3.head? with
        | some 44 => parseArrayLoopF fuel (acc ++ [v]) (skip_whitespace (l3.drop 1))
        | some 93 => .ok (.Array (acc ++ [v]) false, l3.drop 1)
        | none => .error .UnclosedArrayBracket
        | some _ => .error .UnclosedArrayBracket

/-- The inline-table branch loop of `parse_value` (`src/parser/value.rs`,
lines 57-112), transcribed with its `skip_whitespace` calls (which cross
newlines and comments).  Entry lookup goes through the spec-modelled
`value_entry_path` / `inline_table_insert`. -/
def parseInlineTableLoopF : Nat → List (List Nat × TomlValue) → List Nat →
    Except TomlErrorKind (TomlValue × List Nat)
  | 0, _, _ => .error .UnrecognisedValue
  | fuel + 1, entries, l =>
    let l1 := skip_whitespace l
    match l1.head? with
    | some 125 => .ok (.Table entries, l1.drop 1)
    | none => .error .UnclosedInlineTableBracket
    | some _ =>
      match value_entry_path (l1.length + 1) l1 with
      | .error e => .error e
      | .ok (path, l2) =>
        let l3 := skip_whitespace l2
        if l3.head? ≠ some 61 then .error .NoEqualsInAssignment
        else
          let l4 := skip_whitespace (l3.drop 1)
          match parseValueF fuel l4 with
          | .error e => .error e
          | .ok (v, l5) =>
            match inline_table_insert entries path v with
            | .error e => .error e
            | .ok entries2 =>
              let l6 := skip_whitespace l5
              match l6.head? with
              | some 44 => parseInlineTableLoopF fuel entries2 (skip_whitespace (l6.drop 1))
              | some 125 => .ok (.Table entries2, l6.drop 1)
              | none => .error .UnclosedInlineTableBracket
              | some _ => .error .UnclosedInlineTableBracket

/-- `parse_value` from `src/parser/value.rs`: dispatch on the first byte,
in the source's arm order. -/
def parseValueF : Nat → List Nat → Except TomlErrorKind (TomlValue × List Nat)
  | 0, _ => .error .UnrecognisedValue
  | fuel + 1, l =>
    if l.head? = some 39 ∨ l.head? = some 34 then
      match parse_string l with
      | .error e => .error e
      | .ok (s, r) => .ok (.String s, r)
    else if l.head? = some 91 then parseArrayLoopF fuel [] (l.drop 1)
    else if l.head? = some 123 then parseInlineTableLoopF fuel [] (l.drop 1)
    else if l.head? = some 116 ∧ l.take 4 = bytes "true" then .ok (.Boolean true, l.drop 4)
    else if l.head? = some 102 ∧ l.take 5 = bytes "false" then .ok (.Boolean false, l.drop 5)
    else if l.head? = some 43 ∨ l.head? = some 45 then parse_sign l
    else if l.head? = some 105 ∧ l.take 3 = bytes "inf" then .ok (.Float (.inf false), l.drop 3)
    else if l.head? = some 110 ∧ l.take 3 = bytes "nan" then .ok (.Float (.nan false), l.drop 3)
    else
      match l.head? with
      | some b => if isAsciiDigit b then parse_number false l else .error .UnrecognisedValue
      | none => .error .UnrecognisedValue

end

/-- `parse_value` entry point (fuel instantiated above the input length). -/
def parse_value (l : List Nat) : Except TomlErrorKind (TomlValue × List Nat) :=
  parseValueF (l.length + 1) l


/-- The inline-table loop closes immediately after whitespace (including
newlines and comments) followed by `}`. -/
theorem parseInlineTableLoopF_close (fuel : Nat)
    (entries : List (List Nat × TomlValue)) (ws : List Nat)
    (h : ∀ x ∈ ws, x = 9 ∨ x = 32 ∨ x = 10 ∨ x = 13) :
    parseInlineTableLoopF (fuel + 1) entries (ws ++ [125]) =
      .ok (.Table entries, []) := by
  have hsk : skip_whitespace (ws ++ [125]) = [125] := by
    have := skip_whitespace_clean ws h 125 [] (by omega) (by omega)
    simpa using this
  simp only [parseInlineTableLoopF, hsk]
  rfl

/-- C5 counterexample (the claim as stated is false): an inline table whose
interior spans a newline parses successfully, because the inline-table loop
uses the newline-crossing `Text::skip_whitespace`.  `{` LF `}` yields the
empty table. -/
theorem claim_c5_counterexample :
    parse_value (bytes "\x7b\n\x7d") = .ok (.Table [], []) := rfl

/-- C5 amended: between the braces of an inline table the parser skips
whitespace with `Text::skip_whitespace`, which consumes spaces, tabs, CRs
and LFs (and comments), so an inline table whose contents span newlines can
parse successfully. -/
theorem claim_c5_amended (ws : List Nat)
    (h : ∀ x ∈ ws, x = 9 ∨ x = 32 ∨ x = 10 ∨ x = 13) :
    parse_value (123 :: ws ++ [125]) = .ok (.Table [], []) := by
  unfold parse_value
  have hlen : (123 :: ws ++ [125]).length + 1 = (ws.length + 1) + 1 + 1 := by simp
  rw [hlen]
  have hstep : parseValueF ((ws.length + 1) + 1 + 1) (123 :: ws ++ [125]) =
      parseInlineTableLoopF ((ws.length + 1) + 1) [] (ws ++ [125]) := by
    simp only [parseValueF]
    rw [if_neg (by simp), if_neg (by simp), if_pos (by simp)]
    simp
  rw [hstep]
  exact parseInlineTableLoopF_close (ws.length + 1) [] ws h

/-- Witness for C5's amended statement: interior of a single LF. -/
theorem claim_c5_witness :
    parse_value (123 :: [10] ++ [125]) = .ok (.Table [], []) :=
  claim_c5_amended [10] (by decide)

/-! ## Table construction discipline (spec sections 4.2, 4.3, 4.8)

Modelled from the spec: the current revision's crate root (`Toml::parse`,
`insert_subtable`) and `TomlTable` (`value_entry` and the insertion
discipline with origin tags) are absent from the sources under `src/`; the
files `src/lib.rs` and `src/table.rs` that remain are stale revisions of an
earlier API that do not compile against the current modules (only callers
such as `parse_nested` in `src/parser/key.rs` and the tests survive).  The
following definitions model sections 4.2/4.3/4.8 of the spec: documents as
statement lists over dotted-key paths, tables with origin tags, navigation
that creates implicit tables and descends into the last element of an
array-of-tables, vacancy-checked plain assignment, implicit-to-explicit
promotion (once), and array-of-tables appends.  Every statement carries the
byte span of its declaration, and errors carry the span they were raised
with. -/

/-- Origin tags of section 4.8. -/
inductive Origin where
  | implicitDotted
  | explicitHeader
  | inlineLiteral
  | arrayElem
deriving DecidableEq, Repr

/-- Values of the spec model: scalars are abstracted to tagged leaves;
arrays carry the array-of-tables flag; tables carry an origin tag and an
entry list. -/
inductive Val where
  | leaf (tag : Nat)
  | arr (aot : Bool) (elems : List Val)
  | table (org : Origin) (entries : List (String × Val))
deriving Repr

/-- Association-list get for the spec model. -/
def lookupVal : List (String × Val) → String → Option Val
  | [], _ => none
  | (k2, v) :: rest, k => if k2 = k then some v else lookupVal rest k

/-- Association-list set (replace) for the spec model. -/
def setVal : List (String × Val) → String → Val → List (String × Val)
  | [], k, v => [(k, v)]
  | (k2, v2) :: rest, k, v =>
    if k2 = k then (k, v) :: rest else (k2, v2) :: setVal rest k v

/-- Errors of the spec model: a byte span (inclusive start and end, as in
the source's `Error`) and a kind. -/
structure SpecErr where
  start : Nat
  stop : Nat
  kind : TomlErrorKind
deriving DecidableEq, Repr

/-- Plain `key = value` insertion (spec section 4.8): navigate the leading
segments, creating implicit tables, descending through tables that are not
inline literals and into the last element of an array-of-tables; the final
slot must be vacant, otherwise `ReusedKey` spanning the declaration. -/
def insertValue (sp : Nat × Nat) :
    List (String × Val) → List String → Val → Except SpecErr (List (String × Val))
  | _, [], _ => .error ⟨sp.1, sp.2, .ReusedKey⟩
  | entries, [k], v =>
    match lookupVal entries k with
    | some _ => .error ⟨sp.1, sp.2, .ReusedKey⟩
    | none => .ok (entries ++ [(k, v)])
  | entries, k :: rest, v =>
    match lookupVal entries k with
    | none =>
      match insertValue sp [] rest v with
      | .error e => .error e
      | .ok sub => .ok (entries ++ [(k, .table .implicitDotted sub)])
    | some (.table org sub) =>
      if org = .inlineLiteral then .error ⟨sp.1, sp.2, .ReusedKey⟩
      else
        match insertValue sp sub rest v with
        | .error e => .error e
        | .ok sub2 => .ok (setVal entries k (.table org sub2))
    | some (.arr true elems) =>
      match elems.getLast? with
      | some (.table org sub) =>
        match insertValue sp sub rest v with
        | .error e => .error e
        | .ok sub2 => .ok (setVal entries k (.arr true (elems.dropLast ++ [.table org sub2])))
      | _ => .error ⟨sp.1, sp.2, .ReusedKey⟩
    | some _ => .error ⟨sp.1, sp.2, .ReusedKey⟩

/-- Read-only navigation to a path's final slot: `none` when navigation
itself fails (inline-literal table, non-table value, broken
array-of-tables), `some none` when the slot is vacant (possibly behind
intermediate tables that insertion would create), `some (some w)` when it
holds `w`. -/
def resolveSlot : List (String × Val) → List String → Option (Option Val)
  | _, [] => none
  | entries, [k] => some (lookupVal entries k)
  | entries, k :: rest =>
    match lookupVal entries k with
    | none => some none
    | some (.table org sub) =>
      if org = .inlineLiteral then none else resolveSlot sub rest
    | some (.arr true elems) =>
      match elems.getLast? with
      | some (.table _ sub) => resolveSlot sub rest
      | _ => none
    | some _ => none

/-- `[header]` processing (spec section 4.3): navigate as above; at the
final segment create an explicit table, promote a previously implicit
table to explicit (once), rebind onto the last element of an
array-of-tables, and fail `ReusedKey` otherwise. -/
def headerStd (sp : Nat × Nat) :
    List (String × Val) → List String → Except SpecErr (List (String × Val))
  | _, [] => .error ⟨sp.1, sp.2, .ReusedKey⟩
  | entries, [k] =>
    match lookupVal entries k with
    | none => .ok (entries ++ [(k, .table .explicitHeader [])])
    | some (.table .implicitDotted sub) => .ok (setVal entries k (.table .explicitHeader sub))
    | some (.arr true elems) =>
      match elems.getLast? with
      | some (.table _ _) => .ok entries
      | _ => .error ⟨sp.1, sp.2, .ReusedKey⟩
    | some _ => .error ⟨sp.1, sp.2, .ReusedKey⟩
  | entries, k :: rest =>
    match lookupVal entries k with
    | none =>
      match headerStd sp [] rest with
      | .error e => .error e
      | .ok sub => .ok (entries ++ [(k, .table .implicitDotted sub)])
    | some (.table org sub) =>
      if org = .inlineLiteral then .error ⟨sp.1, sp.2, .ReusedKey⟩
      else
        match headerStd sp sub rest with
        | .error e => .error e
        | .ok sub2 => .ok (setVal entries k (.table org sub2))
    | some (.arr true elems) =>
      match elems.getLast? with
      | some (.table org sub) =>
        match headerStd sp sub rest with
        | .error e => .error e
        | .ok sub2 => .ok (setVal entries k (.arr true (elems.dropLast ++ [.table org sub2])))
      | _ => .error ⟨sp.1, sp.2, .ReusedKey⟩
    | some _ => .error ⟨sp.1, sp.2, .ReusedKey⟩

/-- `[[header]]` processing (spec section 4.3): at the final segment the
slot must be vacant (create the array-of-tables) or already an
array-of-tables (append a fresh element). -/
def headerArr (sp : Nat × Nat) :
    List (String × Val) → List String → Except SpecErr (List (String × Val))
  | _, [] => .error ⟨sp.1, sp.2, .ReusedKey⟩
  | entries, [k] =>
    match lookupVal entries k with
    | none => .ok (entries ++ [(k, .arr true [.table .arrayElem []])])
    | some (.arr true elems) => .ok (setVal entries k (.arr true (elems ++ [.table .arrayElem []])))
    | some _ => .error ⟨sp.1, sp.2, .ReusedKey⟩
  | entries, k :: rest =>
    match lookupVal entries k with
    | none =>
      match headerArr sp [] rest with
      | .error e => .error e
      | .ok sub => .ok (entries ++ [(k, .table .implicitDotted sub)])
    | some (.table org sub) =>
      if org = .inlineLiteral then .error ⟨sp.1, sp.2, .ReusedKey⟩
      else
        match headerArr sp sub rest with
        | .error e => .error e
        | .ok sub2 => .ok (setVal entries k (.table org sub2))
    | some (.arr true elems) =>
      match elems.getLast? with
      | some (.table org sub) =>
        match headerArr sp sub rest with
        | .error e => .error e
        | .ok sub2 => .ok (setVal entries k (.arr true (elems.dropLast ++ [.table org sub2])))
      | _ => .error ⟨sp.1, sp.2, .ReusedKey⟩
    | some _ => .error ⟨sp.1, sp.2, .ReusedKey⟩

/-- Document statements of the spec model (spec section 4.2): each carries
the byte span of its declaration. -/
inductive Stmt where
  | assign (sp : Nat × Nat) (path : List String) (v : Val)
  | header (sp : Nat × Nat) (path : List String)
  | arrayHeader (sp : Nat × Nat) (path : List String)
deriving Repr

/-- Driver state: the root table and the dotted path of the current target
(empty at the root; assignments resolve relative to it). -/
structure PState where
  root : List (String × Val)
  scope : List String
deriving Repr

/-- One statement of the driver loop (spec section 4.2): assignments insert
at `scope ++ path`; headers rebind the scope. -/
def execStmt (st : PState) : Stmt → Except SpecErr PState
  | .assign sp p v =>
    match insertValue sp st.root (st.scope ++ p) v with
    | .error e => .error e
    | .ok r => .ok ⟨r, st.scope⟩
  | .header sp p =>
    match headerStd sp st.root p with
    | .error e => .error e
    | .ok r => .ok ⟨r, p⟩
  | .arrayHeader sp p =>
    match headerArr sp st.root p with
    | .error e => .error e
    | .ok r => .ok ⟨r, p⟩

/-- The driver loop: first error wins. -/
def execStmts (st : PState) : List Stmt → Except SpecErr PState
  | [] => .ok st
  | s :: rest =>
    match execStmt st s with
    | .error e => .error e
    | .ok st2 => execStmts st2 rest

/-- Whole-document entry point of the spec model. -/
def parseDoc (doc : List Stmt) : Except SpecErr PState :=
  execStmts ⟨[], []⟩ doc

theorem execStmts_append (pre : List Stmt) :
    ∀ (st : PState) (post : List Stmt),
      execStmts st (pre ++ post) =
        (match execStmts st pre with
         | .error e => .error e
         | .ok st2 => execStmts st2 post) := by
  induction pre with
  | nil => intro st post; simp [execStmts]
  | cons s pre2 ih =>
    intro st post
    simp only [List.cons_append, execStmts]
    cases execStmt st s with
    | error e => rfl
    | ok st2 => exact ih st2 post

/-- An occupied final slot makes plain insertion fail with `ReusedKey`
carrying the declaration's span. -/
theorem insertValue_occupied (p : List String) :
    ∀ (m : List (String × Val)) (sp : Nat × Nat) (v w : Val),
      resolveSlot m p = some (some w) →
      insertValue sp m p v = .error ⟨sp.1, sp.2, .ReusedKey⟩ := by
  induction p with
  | nil => intro m sp v w h; simp [resolveSlot] at h
  | cons k rest ih =>
    intro m sp v w h
    cases rest with
    | nil =>
      simp only [resolveSlot] at h
      injection h with h2
      simp only [insertValue, h2]
    | cons k2 rest2 =>
      simp only [resolveSlot] at h
      simp only [insertValue]
      cases hlk : lookupVal m k with
      | none =>
        simp only [hlk] at h
        exact absurd h (by simp)
      | some u =>
        simp only [hlk] at h ⊢
        cases u with
        | leaf tag => simp at h
        | table org sub =>
          simp only [] at h ⊢
          by_cases horg : org = Origin.inlineLiteral
          · rw [if_pos horg] at h; simp at h
          · rw [if_neg horg] at h
            rw [if_neg horg, ih sub sp v w h]
        | arr aot elems =>
          cases aot with
          | false => simp at h
          | true =>
            simp only [] at h ⊢
            cases hlast : elems.getLast? with
            | none =>
              simp only [hlast] at h
              exact absurd h (by simp)
            | some le =>
              simp only [hlast] at h ⊢
              cases le with
              | leaf tag => simp at h
              | arr a2 e2 => simp at h
              | table org sub =>
                simp only [] at h ⊢
                rw [ih sub sp v w h]

/-- A successful plain insertion implies the final slot was vacant: no
occupied slot is ever silently overwritten. -/
theorem insertValue_ok_vacant (p : List String) :
    ∀ (m m2 : List (String × Val)) (sp : Nat × Nat) (v : Val),
      insertValue sp m p v = .ok m2 → resolveSlot m p = some none := by
  induction p with
  | nil => intro m m2 sp v h; simp [insertValue] at h
  | cons k rest ih =>
    intro m m2 sp v h
    cases rest with
    | nil =>
      simp only [insertValue] at h
      simp only [resolveSlot]
      cases hlk : lookupVal m k with
      | none => rfl
      | some u =>
        simp only [hlk] at h
        exact absurd h (by simp)
    | cons k2 rest2 =>
      simp only [insertValue] at h
      simp only [resolveSlot]
      cases hlk : lookupVal m k with
      | none => rfl
      | some u =>
        simp only [hlk] at h ⊢
        cases u with
        | leaf tag => simp at h
        | table org sub =>
          simp only [] at h ⊢
          by_cases horg : org = Origin.inlineLiteral
          · rw [if_pos horg] at h; simp at h
          · rw [if_neg horg] at h
            rw [if_neg horg]
            cases hin : insertValue sp sub (k2 :: rest2) v with
            | error e => simp only [hin] at h; exact absurd h (by simp)
            | ok sub2 => exact ih sub sub2 sp v hin
        | arr aot elems =>
          cases aot with
          | false => simp at h
          | true =>
            simp only [] at h ⊢
            cases hlast : elems.getLast? with
            | none => simp only [hlast] at h; exact absurd h (by simp)
            | some le =>
              simp only [hlast] at h ⊢
              cases le with
              | leaf tag => simp at h
              | arr a2 e2 => simp at h
              | table org sub =>
                simp only [] at h ⊢
                cases hin : insertValue sp sub (k2 :: rest2) v with
                | error e => simp only [hin] at h; exact absurd h (by simp)
                | ok sub2 => exact ih sub sub2 sp v hin

/-- C1: if a prefix of the document executes successfully and the final
slot of a plain assignment's full path (current scope plus dotted key) is
already occupied, the whole parse fails with `ReusedKey` spanning that
second declaration; and a plain assignment that succeeds never overwrites —
its slot was vacant. -/
theorem claim_c1 :
    (∀ (pre rest : List Stmt) (sp : Nat × Nat) (p : List String) (v : Val)
        (st : PState) (w : Val),
        execStmts ⟨[], []⟩ pre = .ok st →
        resolveSlot st.root (st.scope ++ p) = some (some w) →
        parseDoc (pre ++ .assign sp p v :: rest) = .error ⟨sp.1, sp.2, .ReusedKey⟩)
  ∧ (∀ (sp : Nat × Nat) (m m2 : List (String × Val)) (p : List String) (v : Val),
        insertValue sp m p v = .ok m2 → resolveSlot m p = some none) := by
  constructor
  · intro pre rest sp p v st w hpre hocc
    unfold parseDoc
    rw [execStmts_append pre ⟨[], []⟩ (.assign sp p v :: rest), hpre]
    simp only [execStmts, execStmt]
    rw [insertValue_occupied (st.scope ++ p) st.root sp v w hocc]
  · intro sp m m2 p v h
    exact insertValue_ok_vacant p m m2 sp v h

/-- Witness for C1: the two-statement document `a = 0` then `a = 1` fails
with `ReusedKey` on the second assignment's span, and the vacancy direction
applied to the first insertion. -/
theorem claim_c1_witness :
    parseDoc [.assign (0, 4) ["a"] (.leaf 0), .assign (6, 10) ["a"] (.leaf 1)] =
      .error ⟨6, 10, .ReusedKey⟩
  ∧ resolveSlot [] ["a"] = some none := by
  constructor
  · exact claim_c1.1 [.assign (0, 4) ["a"] (.leaf 0)] [] (6, 10) ["a"] (.leaf 1)
      ⟨[("a", .leaf 0)], []⟩ (.leaf 0) rfl rfl
  · exact claim_c1.2 (0, 4) [] [("a", .leaf 0)] ["a"] (.leaf 0) rfl

/-- C2: `[a.b]` / `x = 1` / `[a]` / `y = 2` parses, the second header
promoting `a` from implicit to explicit; `[a]` / `b = 1` / `[a]` / `c = 2`
fails with `ReusedKey` spanning the second `[a]` header. -/
theorem claim_c2 :
    parseDoc [.header (0, 4) ["a", "b"], .assign (6, 10) ["x"] (.leaf 1),
              .header (12, 14) ["a"], .assign (16, 20) ["y"] (.leaf 2)] =
      .ok ⟨[("a", .table .explicitHeader
              [("b", .table .explicitHeader [("x", .leaf 1)]), ("y", .leaf 2)])], ["a"]⟩
  ∧ parseDoc [.header (0, 2) ["a"], .assign (4, 8) ["b"] (.leaf 1),
              .header (10, 12) ["a"], .assign (14, 18) ["c"] (.leaf 2)] =
      .error ⟨10, 12, .ReusedKey⟩ := ⟨rfl, rfl⟩
